import Mathlib

/-!
Shallow embedding of the workflow DAG execution engine of `virtual_table_v2`
(`src/agents/workflows/mcp_workflows.py`) and of the pipeline scheduler's
topological sort (`src/agents/core/meta_agent_system.py`).

Modelling conventions:
* Python strings are modelled as `List Char` (`Str`); Python dicts whose keys
  are strings are modelled as association lists in insertion order, with
  `pyDictSet` reproducing Python's update-in-place / append-new semantics.
* Python `Any` values carried by step parameters, variables and step results
  are modelled by the inductive type `Value`.
* The MCP capability invocation (`_simulate_mcp_call`, the only asynchronous
  boundary) is abstracted by an `Oracle` giving, for each tool, action,
  parameter set and attempt index, either a result value or a raised error
  message.  The attempt index models the nondeterminism of the external
  world across retries.
* Python string formatting of error-log entries (`f"Step {id}: {err}"`) and
  of raised exceptions is modelled structurally: `LogEntry.stepLog id err`
  embeds the formatted step entry, `RunError.deadlock ids` embeds the
  RuntimeError message that lists the stuck step ids, and
  `RunError.stepFailure msg` embeds a re-raised step exception.
* `datetime.now()` timestamps are modelled by an abstract clock: `some 0`
  at run start, `some 1` at run end (only settedness is observable here).
* Python float division in `list_workflows` is modelled over `ℚ`, and the
  `ZeroDivisionError` it can raise is modelled by the `Except` error branch.
-/

set_option autoImplicit false

namespace MCP

/-- A Python string, modelled as its list of characters. -/
abbrev Str := List Char

/-- Coerce a Lean string literal to the model's string type. -/
def lit (s : String) : Str := s.data

/-- Python dict assignment `d[k] = v`: overwrite an existing key in place,
otherwise append the new binding at the end (insertion order preserved). -/
def pyDictSet {α : Type} (k : Str) (v : α) (d : List (Str × α)) : List (Str × α) :=
  if (d.lookup k).isSome then
    d.map (fun kv => if kv.1 == k then (k, v) else kv)
  else
    d ++ [(k, v)]

/-- Python dict deletion `del d[k]`. -/
def pyDictDel {α : Type} (k : Str) (d : List (Str × α)) : List (Str × α) :=
  d.filter (fun kv => !(kv.1 == k))

/-- A Python value carried in workflow parameters, variables and results. -/
inductive Value where
  | str (s : Str)
  | int (n : Int)
  | bool (b : Bool)
  | none
  | dict (entries : List (Str × Value))
  | list (items : List Value)

/-- `StepStatus` from `mcp_workflows.py`. -/
inductive StepStatus where
  | waiting | running | completed | failed | skipped
  deriving DecidableEq, Repr

/-- `WorkflowStatus` from `mcp_workflows.py`. -/
inductive WorkflowStatus where
  | pending | running | completed | failed | cancelled | paused
  deriving DecidableEq, Repr

/-- A raised engine error: either the deadlock RuntimeError (whose message
lists the stuck step ids) or a re-raised step failure. -/
inductive RunError where
  | deadlock (stuckIds : List Str)
  | stepFailure (msg : Str)

/-- An entry of `context.error_log`: either the formatted per-step entry
`f"Step {id}: {err}"` appended by the batch loop, or the `str(e)` of the
exception captured by `execute_workflow`. -/
inductive LogEntry where
  | stepLog (stepId : Str) (msg : Str)
  | runLog (e : RunError)

/-- A step condition dict, keyed by its `"type"` field; dicts with an
unknown or missing type fall through to the next condition. -/
inductive Condition where
  | approval_required (message : Str)
  | file_exists (path : Str)
  | variable_exists (var : Str)
  | other

/-- `WorkflowContext` from `mcp_workflows.py`. -/
structure WorkflowContext where
  variables_ : List (Str × Value) := []
  step_results : List (Str × Value) := []
  error_log : List LogEntry := []
  start_time : Option Nat := Option.none
  end_time : Option Nat := Option.none

/-- `WorkflowStep` from `mcp_workflows.py` (timestamps of individual steps
are not tracked; nothing observable depends on them). -/
structure WorkflowStep where
  id : Str
  tool : Str
  action : Str
  parameters : List (Str × Value)
  dependencies : List Str := []
  conditions : List Condition := []
  timeout : Int := 30
  retry_count : Int := 3
  status : StepStatus := StepStatus.waiting
  result : Option Value := Option.none
  error : Option Str := Option.none

/-- `Workflow` from `mcp_workflows.py`. -/
structure Workflow where
  id : Str
  name : Str
  description : Str
  steps : List WorkflowStep
  context : WorkflowContext := {}
  status : WorkflowStatus := WorkflowStatus.pending
  tags : List Str := []

/-- `WorkflowEngine._check_step_conditions`: the first condition with a
recognised type decides; `approval_required` and `file_exists` are
simulated as true, `variable_exists` checks `context.variables_`;
no recognised condition yields `True`. -/
def check_step_conditions (conds : List Condition) (ctx : WorkflowContext) : Bool :=
  match conds with
  | [] => true
  | Condition.approval_required _ :: _ => true
  | Condition.file_exists _ :: _ => true
  | Condition.variable_exists v :: _ => (ctx.variables_.lookup v).isSome
  | Condition.other :: rest => check_step_conditions rest ctx

mutual

/-- The per-value dispatch of `WorkflowEngine._process_step_parameters`:
a string starting with `{` and ending with `}` is looked up (variables
first, then step results, else kept literally); dicts recurse; inside
lists only dict elements recurse; everything else passes through. -/
def process_value (ctx : WorkflowContext) : Value → Value
  | Value.str s =>
      if s.head? = some '\x7b' ∧ s.getLast? = some '\x7d' then
        -- var_name = value[1:-1]
        match ctx.variables_.lookup ((s.drop 1).dropLast) with
        | some v => v
        | Option.none =>
          match ctx.step_results.lookup ((s.drop 1).dropLast) with
          | some v => v
          | Option.none => Value.str s
      else Value.str s
  | Value.dict entries => Value.dict (process_entries ctx entries)
  | Value.list items => Value.list (process_items ctx items)
  | Value.int n => Value.int n
  | Value.bool b => Value.bool b
  | Value.none => Value.none

/-- Processing of a parameter dict, entry by entry. -/
def process_entries (ctx : WorkflowContext) : List (Str × Value) → List (Str × Value)
  | [] => []
  | (k, v) :: rest => (k, process_value ctx v) :: process_entries ctx rest

/-- Processing of a list value: only dict items are recursed into,
all other items (including placeholder strings) pass through unchanged. -/
def process_items (ctx : WorkflowContext) : List Value → List Value
  | [] => []
  | Value.dict entries :: rest => Value.dict (process_entries ctx entries) :: process_items ctx rest
  | item :: rest => item :: process_items ctx rest

end

/-- `WorkflowEngine._process_step_parameters`. -/
def process_step_parameters (params : List (Str × Value)) (ctx : WorkflowContext) :
    List (Str × Value) :=
  process_entries ctx params

/-- The capability-invocation boundary (`_simulate_mcp_call`): given the
tool, the action, the processed parameters and the attempt index (how many
times this invocation has been started before), the external world either
returns a value or raises an error message. -/
abbrev Oracle := Str → Str → List (Str × Value) → Nat → Except Str Value

/-- An observable scheduling event of one run. -/
inductive Event where
  | start (stepId : Str)
  | skip (stepId : Str)
  | complete (stepId : Str)
  | fail (stepId : Str)

/-- How many times a step has been started so far, read off the trace. -/
def attempt_number (trace : List Event) (stepId : Str) : Nat :=
  trace.countP (fun e => match e with | Event.start i => i == stepId | _ => false)

/-- The state of `_execute_workflow_steps` between batch iterations:
the (mutated) step objects, the shared context, the `completed_steps`
set (as an insertion-ordered list) and the event trace. -/
structure RunState where
  steps : List WorkflowStep
  context : WorkflowContext
  completed : List Str
  trace : List Event

/-- In-place mutation of the step object(s) with the given id. -/
def update_step (steps : List WorkflowStep) (stepId : Str)
    (f : WorkflowStep → WorkflowStep) : List WorkflowStep :=
  steps.map (fun s => if s.id == stepId then f s else s)

/-- Result of one `_execute_step` coroutine: the step status it left
behind (`running`, or `skipped` when conditions failed), the returned
value or raised error, and the emitted events. -/
structure StepExecResult where
  status : StepStatus
  outcome : Except Str Value
  events : List Event

/-- `WorkflowEngine._execute_step`: mark Running; if the conditions do not
hold, mark Skipped and return `None` without invoking the capability;
otherwise resolve the parameters and invoke the capability. -/
def execute_step (oracle : Oracle) (step : WorkflowStep) (ctx : WorkflowContext)
    (attempt : Nat) : StepExecResult :=
  if check_step_conditions step.conditions ctx then
    match oracle step.tool step.action (process_step_parameters step.parameters ctx) attempt with
    | Except.ok v => { status := StepStatus.running, outcome := Except.ok v,
                       events := [Event.start step.id] }
    | Except.error e => { status := StepStatus.running, outcome := Except.error e,
                          events := [Event.start step.id] }
  else
    { status := StepStatus.skipped, outcome := Except.ok Value.none,
      events := [Event.start step.id, Event.skip step.id] }

/-- The state after the failure branch of the result-processing loop
(lines 452-464): mark the step, log `f"Step {id}: {err}"`, and either
reset to Waiting with one retry fewer (when budget remains) or leave it
Failed. -/
def st_after_fail (st : RunState) (step : WorkflowStep) (e : Str) : RunState :=
  { st with
    steps := update_step st.steps step.id (fun s =>
      if step.retry_count > 0 then
        { s with status := StepStatus.waiting, error := some e,
                 retry_count := s.retry_count - 1 }
      else
        { s with status := StepStatus.failed, error := some e }),
    context := { st.context with
      error_log := st.context.error_log ++ [LogEntry.stepLog step.id e] },
    trace := st.trace ++ [Event.fail step.id] }

/-- The state after the success branch of the result-processing loop
(lines 465-469): mark the step Completed, store its result, extend the
completed set. -/
def st_after_ok (st : RunState) (step : WorkflowStep) (v : Value) : RunState :=
  { st with
    steps := update_step st.steps step.id (fun s =>
      { s with status := StepStatus.completed, result := some v }),
    context := { st.context with
      step_results := pyDictSet step.id v st.context.step_results },
    completed := st.completed ++ [step.id],
    trace := st.trace ++ [Event.complete step.id] }

/-- The result-processing loop of `_execute_workflow_steps` (lines 451-469):
for each ready step, in order, either record completion, or log the failure
and retry / re-raise.  Returns the state at exit together with the raised
error, if any (a raise abandons the remaining batch entries). -/
def process_batch_results : List (WorkflowStep × StepExecResult) → RunState →
    RunState × Option RunError
  | [], st => (st, Option.none)
  | (step, r) :: rest, st =>
    match r.outcome with
    | Except.error e =>
        if step.retry_count > 0 then process_batch_results rest (st_after_fail st step e)
        else (st_after_fail st step e, some (RunError.stepFailure e))
    | Except.ok v => process_batch_results rest (st_after_ok st step v)

theorem process_batch_cons_error (step : WorkflowStep) (r : StepExecResult)
    (rest : List (WorkflowStep × StepExecResult)) (st : RunState) (e : Str)
    (hr : r.outcome = Except.error e) :
    process_batch_results ((step, r) :: rest) st =
      if step.retry_count > 0 then process_batch_results rest (st_after_fail st step e)
      else (st_after_fail st step e, some (RunError.stepFailure e)) := by
  simp only [process_batch_results, hr]

theorem process_batch_cons_ok (step : WorkflowStep) (r : StepExecResult)
    (rest : List (WorkflowStep × StepExecResult)) (st : RunState) (v : Value)
    (hr : r.outcome = Except.ok v) :
    process_batch_results ((step, r) :: rest) st =
      process_batch_results rest (st_after_ok st step v) := by
  simp only [process_batch_results, hr]

/-- One batch of `_execute_workflow_steps`: all ready steps run
concurrently against the pre-batch context (each coroutine runs to its
first true suspension point before any result is collected), their interim
statuses are recorded, then the results are processed in ready order. -/
def run_batch (oracle : Oracle) (st : RunState) (ready : List WorkflowStep) :
    RunState × Option RunError :=
  let execs : List (WorkflowStep × StepExecResult) :=
    ready.map (fun s => (s, execute_step oracle s st.context (attempt_number st.trace s.id)))
  let st1 : RunState :=
    { st with
      steps := execs.foldl
        (fun acc p => update_step acc p.1.id (fun s => { s with status := p.2.status }))
        st.steps,
      trace := st.trace ++ execs.foldr (fun p acc => p.2.events ++ acc) [] }
  process_batch_results execs st1

/-- The steps of `st` that are ready to run now. -/
def ready_steps (st : RunState) : List WorkflowStep :=
  st.steps.filter (fun s =>
    !(st.completed.contains s.id) && (s.status == StepStatus.waiting) &&
    s.dependencies.all (fun d => st.completed.contains d))

/-- The steps of `st` not yet in the completed set. -/
def remaining_steps (st : RunState) : List WorkflowStep :=
  st.steps.filter (fun s => !(st.completed.contains s.id))

/-- How the batch loop of `_execute_workflow_steps` ended. -/
inductive RunOutcome where
  | ok
  | err (e : RunError)
  | fuelOut

/-- The batch loop of `_execute_workflow_steps` (lines 428-469), with an
explicit fuel parameter standing in for the `while` loop; `fuelOut` marks
fuel exhaustion, which `run_steps_fuel_sufficient` below proves unreachable
for the fuel supplied by `execute_workflow`. -/
def run_steps (oracle : Oracle) : Nat → RunState → RunState × RunOutcome
  | 0, st => (st, RunOutcome.fuelOut)
  | Nat.succ fuel, st =>
    if st.completed.length < st.steps.length then
      match ready_steps st with
      | [] =>
        match remaining_steps st with
        | [] => (st, RunOutcome.ok)
        | r :: rs => (st, RunOutcome.err (RunError.deadlock ((r :: rs).map WorkflowStep.id)))
      | r :: rs =>
        match run_batch oracle st (r :: rs) with
        | (st', Option.none) => run_steps oracle fuel st'
        | (st', some e) => (st', RunOutcome.err e)
    else (st, RunOutcome.ok)

/-- `WorkflowEngine._copy_step`: a fresh step object sharing the
definition fields, with run-state fields back at their defaults. -/
def copy_step (step : WorkflowStep) : WorkflowStep :=
  { id := step.id, tool := step.tool, action := step.action,
    parameters := step.parameters, dependencies := step.dependencies,
    conditions := step.conditions, timeout := step.timeout,
    retry_count := step.retry_count,
    status := StepStatus.waiting, result := Option.none, error := Option.none }

/-- The engine's workflow collections. -/
structure WorkflowEngine where
  active_workflows : List (Str × Workflow) := []
  completed_workflows : List (Str × Workflow) := []
  workflow_templates : List (Str × Workflow) := []

/-- An upper bound on the number of batch iterations: every non-final
iteration either completes a step or decrements some retry budget. -/
def workflow_fuel (steps : List WorkflowStep) : Nat :=
  steps.foldr (fun s acc => 1 + s.retry_count.toNat + acc) 1

/-- The fresh run state `execute_workflow` builds from a template: copied
steps, variables seeded from the call's `parameters`, empty results and
log, start timestamp set. -/
def init_run_state (template : Workflow) (parameters : List (Str × Value)) : RunState :=
  { steps := template.steps.map copy_step,
    context := { variables_ := parameters, step_results := [], error_log := [],
                 start_time := some 0, end_time := Option.none },
    completed := [], trace := [] }

/-- The run status `execute_workflow` records: Completed on a clean finish
of the batch loop, Failed when an exception was caught. -/
def outcome_status : RunOutcome → WorkflowStatus
  | RunOutcome.ok => WorkflowStatus.completed
  | RunOutcome.err _ => WorkflowStatus.failed
  | RunOutcome.fuelOut => WorkflowStatus.failed

/-- The error log after `execute_workflow`'s exception handler: a caught
error is appended as `str(e)`. -/
def outcome_log (log : List LogEntry) : RunOutcome → List LogEntry
  | RunOutcome.err e => log ++ [LogEntry.runLog e]
  | _ => log

/-- The run object as retained after `execute_workflow` finishes: final
steps and context from the batch loop, error log and status per the
exception handler, end timestamp set in the `finally` block. -/
def finished_instance (template : Workflow) (fresh_id : Str) (st : RunState)
    (outcome : RunOutcome) : Workflow :=
  { id := fresh_id, name := template.name, description := template.description,
    steps := st.steps,
    context := { st.context with
      error_log := outcome_log st.context.error_log outcome,
      end_time := some 1 },
    status := outcome_status outcome, tags := template.tags }

/-- `WorkflowEngine.execute_workflow`: instantiate a fresh run from the
template (copied steps, variables seeded from `parameters`), drive the
batch loop, capture any raised error into the run state, finalise the end
timestamp, retain the run in `completed_workflows` and drop it from
`active_workflows` (it is registered there at start and deleted in the
`finally` block, so the net effect is absence of the key), and return the
run id.  An unknown template id raises `ValueError` (the `Except.error`
branch).  `fresh_id` stands for the generated `uuid4`. -/
def execute_workflow (engine : WorkflowEngine) (oracle : Oracle) (workflow_id : Str)
    (parameters : List (Str × Value)) (fresh_id : Str) :
    Except Str (WorkflowEngine × Str) :=
  match engine.workflow_templates.lookup workflow_id with
  | Option.none => Except.error workflow_id
  | some template =>
    let st0 := init_run_state template parameters
    let res := run_steps oracle (workflow_fuel st0.steps) st0
    let inst := finished_instance template fresh_id res.1 res.2
    Except.ok
      ({ engine with
         completed_workflows := pyDictSet fresh_id inst engine.completed_workflows,
         active_workflows := pyDictDel fresh_id engine.active_workflows },
       fresh_id)

/-- The dictionary returned by `WorkflowEngine.get_workflow_status`. -/
structure StatusView where
  id : Str
  name : Str
  status : WorkflowStatus
  total_steps : Nat
  completed_steps : Nat
  failed_steps : Nat
  step_details : List (Str × StepStatus × Option Str)
  error_log : List LogEntry

/-- Build the status dictionary of one workflow. -/
def status_view (w : Workflow) : StatusView :=
  { id := w.id, name := w.name, status := w.status,
    total_steps := w.steps.length,
    completed_steps := (w.steps.filter (fun s => s.status == StepStatus.completed)).length,
    failed_steps := (w.steps.filter (fun s => s.status == StepStatus.failed)).length,
    step_details := w.steps.map (fun s => (s.id, s.status, s.error)),
    error_log := w.context.error_log }

/-- `WorkflowEngine.get_workflow_status`: look in the active runs first,
then in the retained completed runs; `none` models the `None` return. -/
def get_workflow_status (engine : WorkflowEngine) (workflow_id : Str) : Option StatusView :=
  match engine.active_workflows.lookup workflow_id with
  | some w => some (status_view w)
  | Option.none =>
    match engine.completed_workflows.lookup workflow_id with
    | some w => some (status_view w)
    | Option.none => Option.none

/-- Python `{**active, **completed}`: merged dict, later entries override. -/
def dict_merge {α : Type} (a b : List (Str × α)) : List (Str × α) :=
  b.foldl (fun acc kv => pyDictSet kv.1 kv.2 acc) a

/-- One entry of the `list_workflows` result. -/
structure WorkflowListEntry where
  id : Str
  name : Str
  status : WorkflowStatus
  tags : List Str
  progress : ℚ

/-- The progress expression of `list_workflows` (line 636):
`completed_count / len(workflow.steps)`, an unguarded division that raises
`ZeroDivisionError` on a workflow with no steps (modelled by the error
branch; ideal rationals stand in for Python floats). -/
def workflow_progress (w : Workflow) : Except Str ℚ :=
  if w.steps.length = 0 then Except.error (lit "ZeroDivisionError")
  else Except.ok
    (((w.steps.filter (fun s => s.status == StepStatus.completed)).length : ℚ) /
      (w.steps.length : ℚ))

/-- One listing entry: the dict appended per selected workflow, whose
progress computation can raise. -/
def workflow_entry (w : Workflow) : Except Str WorkflowListEntry :=
  (workflow_progress w).map (fun p =>
    { id := w.id, name := w.name, status := w.status, tags := w.tags, progress := p })

/-- `WorkflowEngine.list_workflows` (sorting by creation time is dropped:
creation timestamps are not modelled and no claim depends on the order). -/
def list_workflows (engine : WorkflowEngine) (status_filter : Option WorkflowStatus) :
    Except Str (List WorkflowListEntry) :=
  let values := (dict_merge engine.active_workflows engine.completed_workflows).map Prod.snd
  let selected := values.filter (fun w =>
    match status_filter with
    | Option.none => true
    | some s => w.status == s)
  selected.mapM workflow_entry

/-!
`MetaAgentSystem._topological_sort` (`meta_agent_system.py`, lines 758-786):
Kahn's algorithm over the graph induced by the data-flow map
(producer id → comma-separated consumer ids), restricted to the given
agents; if the sort does not account for every agent, the original agent
list is returned unchanged.
-/

/-- The whitespace set of Python `str.strip()`. -/
def pyIsSpace (c : Char) : Bool :=
  (c == ' ') || (c == '\t') || (c == '\n') || (c == '\r') || (c == '\x0b') || (c == '\x0c')

/-- Python `str.strip()`. -/
def py_strip (s : Str) : Str :=
  ((s.dropWhile pyIsSpace).reverse.dropWhile pyIsSpace).reverse

/-- Python `str.split(",")`. -/
def py_split_comma (s : Str) : List Str :=
  s.splitOn ','

/-- The stripped consumer ids of one data-flow entry. -/
def flow_targets (targets : Str) : List Str :=
  (py_split_comma targets).map py_strip

/-- The edges the graph-construction loop adds: one edge per target
occurrence, for map entries whose source is among the agents and targets
that are among the agents, in iteration order. -/
def flow_edges (agents : List Str) (data_flow : List (Str × Str)) : List (Str × Str) :=
  data_flow.foldr
    (fun p acc =>
      if agents.contains p.1 then
        ((flow_targets p.2).filter (fun t => agents.contains t)).map (fun t => (p.1, t)) ++ acc
      else acc)
    []

/-- `in_degree` after graph construction: incoming edge count. -/
def in_degree0 (edges : List (Str × Str)) (v : Str) : Nat :=
  (edges.filter (fun e => e.2 == v)).length

/-- `graph[v]` after graph construction: out-neighbors in insertion order. -/
def graph_of (edges : List (Str × Str)) (v : Str) : List Str :=
  (edges.filter (fun e => e.1 == v)).map Prod.snd

/-- Processing the out-neighbors of a popped vertex: decrement each
neighbor's in-degree in order, collecting those that reach exactly zero
(the Python `in_degree[neighbor] -= 1; if in_degree[neighbor] == 0:
queue.append(neighbor)` loop; counts are Python ints, hence `Int`). -/
def kahn_step (deg : Str → Int) : List Str → (Str → Int) × List Str
  | [] => (deg, [])
  | nbr :: rest =>
    let d := deg nbr - 1
    let deg1 : Str → Int := fun v => if v = nbr then d else deg v
    let r := kahn_step deg1 rest
    (r.1, if d = 0 then nbr :: r.2 else r.2)

/-- The `while queue:` loop of `_topological_sort`: pop from the front,
append the popped vertex to the result, enqueue newly zero-in-degree
neighbors at the back.  The fuel bounds the number of pops; with the fuel
supplied by `topological_sort` it never runs out (each vertex is popped at
most once). -/
def kahn_loop (graph : Str → List Str) : Nat → List Str → (Str → Int) → List Str → List Str
  | 0, _, _, res => res.reverse
  | Nat.succ _, [], _, res => res.reverse
  | Nat.succ fuel, current :: rest, deg, res =>
    let r := kahn_step deg (graph current)
    kahn_loop graph fuel (rest ++ r.2) r.1 (current :: res)

/-- `MetaAgentSystem._topological_sort`: Kahn's algorithm; if the result
does not cover every agent (cycle among the agents), fall back to the
original agent list. -/
def topological_sort (agents : List Str) (data_flow : List (Str × Str)) : List Str :=
  let edges := flow_edges agents data_flow
  let queue0 := agents.filter (fun a => in_degree0 edges a == 0)
  let result := kahn_loop (graph_of edges) (agents.length + 1) queue0
    (fun v => (in_degree0 edges v : Int)) []
  if result.length = agents.length then result else agents

/-- An agent id that appears nowhere in the data-flow map, neither as a
producer key nor among the (stripped) consumer ids of any entry. -/
def in_flow_map (data_flow : List (Str × Str)) (a : Str) : Bool :=
  data_flow.any (fun p => p.1 == a || (flow_targets p.2).contains a)

/-- `order` is a topological order of the agents under `edges`: a
permutation of the agents in which every edge's source occurs strictly
before its target. -/
def topo_order_on (agents : List Str) (edges : List (Str × Str)) (order : List Str) : Prop :=
  order.Perm agents ∧ ∀ e ∈ edges, List.Sublist [e.1, e.2] order

/-! ### Parameter resolver: claims C4 and C5 -/

theorem process_entries_eq_map (ctx : WorkflowContext) (l : List (Str × Value)) :
    process_entries ctx l = l.map (fun kv => (kv.1, process_value ctx kv.2)) := by
  induction l with
  | nil => rfl
  | cons kv rest ih =>
    obtain ⟨k, v⟩ := kv
    show (k, process_value ctx v) :: process_entries ctx rest = _
    rw [ih]; rfl

theorem process_items_eq_map (ctx : WorkflowContext) (l : List Value) :
    process_items ctx l = l.map (fun item =>
      match item with
      | Value.dict es => Value.dict (process_entries ctx es)
      | other => other) := by
  induction l with
  | nil => rfl
  | cons item rest ih =>
    cases item with
    | str s => show Value.str s :: process_items ctx rest = _; rw [ih]; rfl
    | int n => show Value.int n :: process_items ctx rest = _; rw [ih]; rfl
    | bool b => show Value.bool b :: process_items ctx rest = _; rw [ih]; rfl
    | none => show Value.none :: process_items ctx rest = _; rw [ih]; rfl
    | dict es =>
      show Value.dict (process_entries ctx es) :: process_items ctx rest = _
      rw [ih]; rfl
    | list items => show Value.list items :: process_items ctx rest = _; rw [ih]; rfl

/-- C4: placeholder resolution with silent miss.  The parameter mapping is
resolved value by value; a value that is the string `{name}` is replaced
by `context.variables[name]` when `name` is a variable, otherwise by
`context.step_results[name]` when it is a prior step result (variables
take precedence, and the substituted value may be of any `Value` type);
when `name` is in neither, the literal placeholder string is kept.
Resolution is a total function, so no error is raised on a miss. -/
theorem c4_placeholder_silent_miss (ctx : WorkflowContext)
    (params : List (Str × Value)) (name : Str) :
    process_step_parameters params ctx =
      params.map (fun kv => (kv.1, process_value ctx kv.2)) ∧
    process_value ctx (Value.str ('\x7b' :: (name ++ ['\x7d']))) =
      (match ctx.variables_.lookup name with
       | some v => v
       | Option.none =>
         match ctx.step_results.lookup name with
         | some v => v
         | Option.none => Value.str ('\x7b' :: (name ++ ['\x7d']))) := by
  constructor
  · exact process_entries_eq_map ctx params
  · have h2 : ('\x7b' :: (name ++ ['\x7d'])).getLast? = some '\x7d' := by
      rw [show ('\x7b' :: (name ++ ['\x7d'])) = ('\x7b' :: name) ++ ['\x7d'] by simp]
      exact List.getLast?_concat _
    have h3 : (('\x7b' :: (name ++ ['\x7d'])).drop 1).dropLast = name := by
      simp
    have hcond : ('\x7b' :: (name ++ ['\x7d'])).head? = some '\x7b' ∧
        ('\x7b' :: (name ++ ['\x7d'])).getLast? = some '\x7d' := ⟨rfl, h2⟩
    simp only [process_value]
    rw [if_pos hcond, h3]

/-- C5 is false as stated: a placeholder string that is an element of a
list parameter value is not substituted (only dict elements of a list are
recursed into).  At the concrete input `{"k": ["{x}"]}` with
`variables = {"x": "v"}` the resolver keeps the literal `"{x}"` element,
so the output differs from the one the claim predicts. -/
theorem c5_counterexample :
    process_step_parameters [(lit "k", Value.list [Value.str (lit "\x7bx\x7d")])]
        { variables_ := [(lit "x", Value.str (lit "v"))] } =
      [(lit "k", Value.list [Value.str (lit "\x7bx\x7d")])] ∧
    process_step_parameters [(lit "k", Value.list [Value.str (lit "\x7bx\x7d")])]
        { variables_ := [(lit "x", Value.str (lit "v"))] } ≠
      [(lit "k", Value.list [Value.str (lit "v")])] := by
  refine ⟨rfl, ?_⟩
  intro h
  rw [show process_step_parameters [(lit "k", Value.list [Value.str (lit "\x7bx\x7d")])]
        { variables_ := [(lit "x", Value.str (lit "v"))] } =
      [(lit "k", Value.list [Value.str (lit "\x7bx\x7d")])] from rfl] at h
  simp only [List.cons.injEq, Prod.mk.injEq, Value.list.injEq, Value.str.injEq] at h
  obtain ⟨⟨-, h2, -⟩, -⟩ := h
  exact absurd h2 (by decide)

/-- C5 (amended): nested mappings are resolved recursively (each entry's
value is resolved, at any depth); sequence values are mapped element by
element, but only mapping elements are recursed into — every non-mapping
element of a list, including placeholder strings, passes through
unchanged; values that are not exact placeholder strings (strings not of
the form `{...}`, numbers, booleans, `None`) pass through unchanged. -/
theorem c5_recursive_resolution_amended (ctx : WorkflowContext)
    (entries : List (Str × Value)) (items : List Value) (s : Str) (n : Int) (b : Bool)
    (hs : ¬(s.head? = some '\x7b' ∧ s.getLast? = some '\x7d')) :
    process_value ctx (Value.dict entries) =
      Value.dict (entries.map (fun kv => (kv.1, process_value ctx kv.2))) ∧
    process_value ctx (Value.list items) =
      Value.list (items.map (fun item =>
        match item with
        | Value.dict es => Value.dict (es.map (fun kv => (kv.1, process_value ctx kv.2)))
        | other => other)) ∧
    process_value ctx (Value.str s) = Value.str s ∧
    process_value ctx (Value.int n) = Value.int n ∧
    process_value ctx (Value.bool b) = Value.bool b ∧
    process_value ctx Value.none = Value.none := by
  refine ⟨?_, ?_, ?_, rfl, rfl, rfl⟩
  · simp [process_value, process_entries_eq_map]
  · simp only [process_value, process_items_eq_map]
    congr 1
    apply List.map_congr_left
    intro item _
    cases item <;> simp [process_entries_eq_map]
  · simp only [process_value]
    rw [if_neg hs]

/-- Witness for the amended C5 at a concrete input. -/
theorem c5_recursive_resolution_amended_witness :
    (¬((lit "p").head? = some '\x7b' ∧ (lit "p").getLast? = some '\x7d')) ∧
    (process_value {} (Value.dict [(lit "a", Value.str (lit "\x7bz\x7d"))]) =
      Value.dict ([(lit "a", Value.str (lit "\x7bz\x7d"))].map
        (fun kv => (kv.1, process_value {} kv.2))) ∧
    process_value {} (Value.list [Value.str (lit "\x7bz\x7d")]) =
      Value.list ([Value.str (lit "\x7bz\x7d")].map (fun item =>
        match item with
        | Value.dict es => Value.dict (es.map (fun kv => (kv.1, process_value {} kv.2)))
        | other => other)) ∧
    process_value {} (Value.str (lit "p")) = Value.str (lit "p") ∧
    process_value {} (Value.int 0) = Value.int 0 ∧
    process_value {} (Value.bool true) = Value.bool true ∧
    process_value {} Value.none = Value.none) :=
  ⟨by decide,
   c5_recursive_resolution_amended {} [(lit "a", Value.str (lit "\x7bz\x7d"))]
     [Value.str (lit "\x7bz\x7d")] (lit "p") 0 true (by decide)⟩

/-! ### Dictionary lemmas -/

theorem lookup_cons_self {α : Type} (k : Str) (v : α) (rest : List (Str × α)) :
    List.lookup k ((k, v) :: rest) = some v := by
  simp [List.lookup]

theorem lookup_cons_ne {α : Type} (k k1 : Str) (v1 : α) (rest : List (Str × α))
    (h : k ≠ k1) : List.lookup k ((k1, v1) :: rest) = List.lookup k rest := by
  simp [List.lookup, beq_eq_false_iff_ne.mpr h]

theorem lookup_map_overwrite {α : Type} (k : Str) (v : α) :
    ∀ d : List (Str × α), (d.lookup k).isSome = true →
      (d.map (fun kv => if kv.1 == k then (k, v) else kv)).lookup k = some v := by
  intro d
  induction d with
  | nil => intro h; simp [List.lookup] at h
  | cons kv rest ih =>
    obtain ⟨k1, v1⟩ := kv
    intro h
    by_cases hk : k1 = k
    · subst hk
      rw [List.map_cons]
      rw [if_pos (by simp)]
      exact lookup_cons_self _ _ _
    · have hb : ¬((k1 == k) = true) := by simp [hk]
      rw [List.map_cons, if_neg hb, lookup_cons_ne _ _ _ _ (Ne.symm hk)]
      rw [lookup_cons_ne _ _ _ _ (Ne.symm hk)] at h
      exact ih h

theorem lookup_append_single {α : Type} (k : Str) (v : α) :
    ∀ d : List (Str × α), d.lookup k = Option.none →
      (d ++ [(k, v)]).lookup k = some v := by
  intro d
  induction d with
  | nil => intro _; exact lookup_cons_self k v []
  | cons kv rest ih =>
    obtain ⟨k1, v1⟩ := kv
    intro h
    by_cases hk : k = k1
    · subst hk
      rw [lookup_cons_self] at h
      cases h
    · rw [List.cons_append, lookup_cons_ne _ _ _ _ hk]
      rw [lookup_cons_ne _ _ _ _ hk] at h
      exact ih h

theorem lookup_pyDictSet {α : Type} (k : Str) (v : α) (d : List (Str × α)) :
    (pyDictSet k v d).lookup k = some v := by
  unfold pyDictSet
  by_cases h : (d.lookup k).isSome
  · rw [if_pos h]
    exact lookup_map_overwrite k v d h
  · rw [if_neg h]
    refine lookup_append_single k v d ?_
    cases hx : d.lookup k with
    | none => rfl
    | some w => rw [hx] at h; simp at h

theorem lookup_pyDictDel {α : Type} (k : Str) (d : List (Str × α)) :
    (pyDictDel k d).lookup k = Option.none := by
  unfold pyDictDel
  induction d with
  | nil => rfl
  | cons kv rest ih =>
    obtain ⟨k1, v1⟩ := kv
    by_cases hk : k1 = k
    · subst hk
      rw [List.filter_cons, if_neg (by simp)]
      exact ih
    · rw [List.filter_cons, if_pos (by simp [hk]),
        lookup_cons_ne _ _ _ _ (Ne.symm hk)]
      exact ih

/-! ### Engine-level claims C7, C8, C9 -/

/-- Closed form of `execute_workflow` on a known template. -/
theorem execute_workflow_eq (engine : WorkflowEngine) (oracle : Oracle)
    (workflow_id : Str) (template : Workflow) (parameters : List (Str × Value))
    (fresh_id : Str) (st : RunState) (outcome : RunOutcome)
    (h : engine.workflow_templates.lookup workflow_id = some template)
    (hrs : run_steps oracle (workflow_fuel (init_run_state template parameters).steps)
      (init_run_state template parameters) = (st, outcome)) :
    execute_workflow engine oracle workflow_id parameters fresh_id =
      Except.ok
        ({ engine with
           completed_workflows := pyDictSet fresh_id
             (finished_instance template fresh_id st outcome) engine.completed_workflows,
           active_workflows := pyDictDel fresh_id engine.active_workflows },
         fresh_id) := by
  unfold execute_workflow
  rw [h]
  simp only [hrs]

/-- C7: failure containment and retention.  For a known template id,
`execute_workflow` always returns the run id (the only raising path is an
unknown template): a step failure or deadlock surfacing from the batch
loop is caught, turns the run status to Failed and is appended to the
error log; in every outcome the end timestamp is set, the run is retained
in `completed_workflows`, absent from `active_workflows`, and remains
queryable through `get_workflow_status`. -/
theorem c7_failure_containment (engine : WorkflowEngine) (oracle : Oracle)
    (workflow_id : Str) (template : Workflow)
    (parameters : List (Str × Value)) (fresh_id : Str)
    (h : engine.workflow_templates.lookup workflow_id = some template) :
    ∃ engine' run st outcome,
      run_steps oracle (workflow_fuel (init_run_state template parameters).steps)
        (init_run_state template parameters) = (st, outcome) ∧
      execute_workflow engine oracle workflow_id parameters fresh_id =
        Except.ok (engine', fresh_id) ∧
      engine'.completed_workflows.lookup fresh_id = some run ∧
      engine'.active_workflows.lookup fresh_id = Option.none ∧
      run.context.end_time = some 1 ∧
      get_workflow_status engine' fresh_id = some (status_view run) ∧
      (outcome = RunOutcome.ok → run.status = WorkflowStatus.completed) ∧
      (∀ e, outcome = RunOutcome.err e → run.status = WorkflowStatus.failed ∧
        run.context.error_log = st.context.error_log ++ [LogEntry.runLog e]) := by
  refine ⟨_, finished_instance template fresh_id
      (run_steps oracle (workflow_fuel (init_run_state template parameters).steps)
        (init_run_state template parameters)).1
      (run_steps oracle (workflow_fuel (init_run_state template parameters).steps)
        (init_run_state template parameters)).2,
    _, _, rfl, execute_workflow_eq engine oracle workflow_id template parameters fresh_id _ _ h rfl,
    lookup_pyDictSet _ _ _, lookup_pyDictDel _ _, rfl, ?_, ?_, ?_⟩
  · unfold get_workflow_status
    rw [lookup_pyDictDel, lookup_pyDictSet]
  · intro hok
    show outcome_status _ = WorkflowStatus.completed
    rw [hok]
    rfl
  · intro e herr
    refine ⟨?_, ?_⟩
    · show outcome_status _ = WorkflowStatus.failed
      rw [herr]
      rfl
    · show outcome_log _ _ = _
      rw [herr]
      rfl

/-- C8: template immutability.  A run operates on `copy_step` images of
the template steps; the copies share the definition fields (id, tool,
action, parameters, dependencies, conditions, timeout, undiminished retry
budget) and restart the run-state fields (status Waiting, result and
error unset).  In this pure embedding the engine's template collection is
returned verbatim, so after the run the template — looked up again by the
same id — still holds its original steps, untouched by the run's
mutations. -/
theorem c8_template_immutability (engine : WorkflowEngine) (oracle : Oracle)
    (workflow_id : Str) (template : Workflow)
    (parameters : List (Str × Value)) (fresh_id : Str)
    (h : engine.workflow_templates.lookup workflow_id = some template) :
    ∃ engine',
      execute_workflow engine oracle workflow_id parameters fresh_id =
        Except.ok (engine', fresh_id) ∧
      engine'.workflow_templates = engine.workflow_templates ∧
      engine'.workflow_templates.lookup workflow_id = some template ∧
      (∀ s, copy_step s =
        { s with status := StepStatus.waiting,
                 result := Option.none, error := Option.none }) ∧
      (∀ s, (copy_step s).status = StepStatus.waiting ∧
        (copy_step s).result = Option.none ∧ (copy_step s).error = Option.none ∧
        (copy_step s).retry_count = s.retry_count ∧
        (copy_step s).parameters = s.parameters ∧
        (copy_step s).dependencies = s.dependencies) :=
  ⟨_, execute_workflow_eq engine oracle workflow_id template parameters fresh_id _ _ h rfl,
   rfl, h, fun _ => rfl, fun _ => ⟨rfl, rfl, rfl, rfl, rfl, rfl⟩⟩

/-- A retained completed run with no steps, as Python could hold after a
direct insertion (every built-in template has nonempty steps, so the
missing guard only shows on a zero-step workflow). -/
def zero_step_workflow : Workflow :=
  { id := lit "Z", name := lit "Z", description := lit "",
    steps := [], status := WorkflowStatus.completed }

/-- An engine retaining `zero_step_workflow`. -/
def zero_step_engine : WorkflowEngine :=
  { completed_workflows := [(lit "Z", zero_step_workflow)] }

/-- C9 is false as stated: the progress division of `list_workflows` is
not guarded — on an engine holding a workflow with zero steps the listing
raises `ZeroDivisionError` instead of reporting a progress value. -/
theorem c9_counterexample :
    list_workflows zero_step_engine Option.none =
      Except.error (lit "ZeroDivisionError") := by rfl

/-- C9 (amended): for every engine whose runs all have at least one step,
the listing succeeds and reports, for each selected run, progress equal to
the count of Completed steps divided by the total step count; the division
is not guarded, and a workflow with zero steps makes the listing raise
`ZeroDivisionError`. -/
theorem c9_progress_amended (engine : WorkflowEngine)
    (status_filter : Option WorkflowStatus)
    (h : ∀ w ∈ (dict_merge engine.active_workflows engine.completed_workflows).map Prod.snd,
      w.steps.length ≠ 0) :
    list_workflows engine status_filter =
      Except.ok
        ((((dict_merge engine.active_workflows engine.completed_workflows).map Prod.snd).filter
          (fun w => match status_filter with
            | Option.none => true
            | some s => w.status == s)).map
          (fun w =>
            { id := w.id, name := w.name, status := w.status, tags := w.tags,
              progress :=
                (((w.steps.filter (fun s => s.status == StepStatus.completed)).length : ℚ) /
                  (w.steps.length : ℚ)) })) ∧
    (∀ w : Workflow, w.steps = [] →
      workflow_progress w = Except.error (lit "ZeroDivisionError")) := by
  constructor
  · simp only [list_workflows]
    generalize hsel : ((dict_merge engine.active_workflows engine.completed_workflows).map
      Prod.snd).filter
      (fun w => match status_filter with
        | Option.none => true
        | some s => w.status == s) = sel
    have hsub : ∀ w ∈ sel, w.steps.length ≠ 0 := by
      intro w hw
      rw [← hsel] at hw
      exact h w (List.mem_of_mem_filter hw)
    clear hsel
    induction sel with
    | nil => rfl
    | cons w rest ih =>
      have hw : w.steps.length ≠ 0 := hsub w (List.mem_cons_self _ _)
      have hrest := ih (fun x hx => hsub x (List.mem_cons_of_mem _ hx))
      have hentry : workflow_entry w = Except.ok
          { id := w.id, name := w.name, status := w.status, tags := w.tags,
            progress :=
              (((w.steps.filter (fun s => s.status == StepStatus.completed)).length : ℚ) /
                (w.steps.length : ℚ)) } := by
        unfold workflow_entry workflow_progress
        rw [if_neg hw]
        rfl
      rw [List.mapM_cons, hentry, hrest, List.map_cons]
      rfl
  · intro w hw
    unfold workflow_progress
    rw [if_pos (by rw [hw]; rfl)]

/-! ### Shared witness fixtures -/

/-- A fixture oracle that always succeeds. -/
def fixture_ok_oracle : Oracle := fun _ _ _ _ => Except.ok (Value.int 1)

/-- A fixture single step. -/
def fixture_step : WorkflowStep :=
  { id := lit "A", tool := lit "t", action := lit "a", parameters := [] }

/-- A fixture one-step template. -/
def fixture_template : Workflow :=
  { id := lit "T", name := lit "T", description := lit "", steps := [fixture_step] }

/-- A fixture engine holding `fixture_template`. -/
def fixture_engine : WorkflowEngine :=
  { workflow_templates := [(lit "T", fixture_template)] }

/-- A fixture retained run with one completed step. -/
def fixture_done_workflow : Workflow :=
  { id := lit "R", name := lit "T", description := lit "",
    steps := [{ fixture_step with status := StepStatus.completed }],
    status := WorkflowStatus.completed }

/-- A fixture engine retaining `fixture_done_workflow`. -/
def fixture_done_engine : WorkflowEngine :=
  { completed_workflows := [(lit "R", fixture_done_workflow)] }


/-! ### Claim C2: scheduling deadlock -/

/-- C2: deadlock detection.  Whenever the batch loop reaches an iteration
with unresolved steps left (`completed` smaller than the step list) in
which no step is ready — e.g. two steps each declaring the other as a
dependency — it raises the deadlock error naming exactly the ids of all
stuck (unresolved) steps; and whenever the batch loop of a run ends in any
raised error, `execute_workflow` catches it, ends the run with status
Failed and appends that error to the run's error log. -/
theorem c2_deadlock_detection (oracle : Oracle) (fuel : Nat) (st : RunState)
    (h0 : st.completed.length < st.steps.length)
    (h1 : ready_steps st = [])
    (h2 : remaining_steps st ≠ []) :
    run_steps oracle (fuel + 1) st =
      (st, RunOutcome.err (RunError.deadlock ((remaining_steps st).map WorkflowStep.id))) ∧
    (∀ engine workflow_id template parameters fresh_id st' e,
      engine.workflow_templates.lookup workflow_id = some template →
      run_steps oracle (workflow_fuel (init_run_state template parameters).steps)
        (init_run_state template parameters) = (st', RunOutcome.err e) →
      ∃ engine' run,
        execute_workflow engine oracle workflow_id parameters fresh_id =
          Except.ok (engine', fresh_id) ∧
        engine'.completed_workflows.lookup fresh_id = some run ∧
        run.status = WorkflowStatus.failed ∧
        run.context.error_log = st'.context.error_log ++ [LogEntry.runLog e]) := by
  constructor
  · show run_steps oracle (Nat.succ fuel) st = _
    unfold run_steps
    rw [if_pos h0, h1]
    cases hrem : remaining_steps st with
    | nil => exact absurd hrem h2
    | cons r rs => rfl
  · intro engine workflow_id template parameters fresh_id st' e hT hrs
    refine ⟨_, finished_instance template fresh_id st' (RunOutcome.err e),
      execute_workflow_eq engine oracle workflow_id template parameters fresh_id
        st' (RunOutcome.err e) hT hrs,
      lookup_pyDictSet _ _ _, rfl, rfl⟩

/-- Two steps each declaring the other as a dependency, and the fresh run
state over them. -/
def fixture_dead_a : WorkflowStep :=
  { id := lit "A", tool := lit "t", action := lit "a", parameters := [],
    dependencies := [lit "B"] }

/-- The second mutually dependent step. -/
def fixture_dead_b : WorkflowStep :=
  { id := lit "B", tool := lit "t", action := lit "a", parameters := [],
    dependencies := [lit "A"] }

/-- A fresh run state over the two mutually dependent steps. -/
def fixture_dead_state : RunState :=
  { steps := [fixture_dead_a, fixture_dead_b], context := {},
    completed := [], trace := [] }

/-- Witness for C2 at the mutual-dependency state. -/
theorem c2_deadlock_detection_witness :
    fixture_dead_state.completed.length < fixture_dead_state.steps.length ∧
    ready_steps fixture_dead_state = [] ∧
    remaining_steps fixture_dead_state ≠ [] ∧
    (run_steps fixture_ok_oracle (0 + 1) fixture_dead_state =
      (fixture_dead_state, RunOutcome.err (RunError.deadlock
        ((remaining_steps fixture_dead_state).map WorkflowStep.id))) ∧
    (∀ engine workflow_id template parameters fresh_id st' e,
      engine.workflow_templates.lookup workflow_id = some template →
      run_steps fixture_ok_oracle (workflow_fuel (init_run_state template parameters).steps)
        (init_run_state template parameters) = (st', RunOutcome.err e) →
      ∃ engine' run,
        execute_workflow engine fixture_ok_oracle workflow_id parameters fresh_id =
          Except.ok (engine', fresh_id) ∧
        engine'.completed_workflows.lookup fresh_id = some run ∧
        run.status = WorkflowStatus.failed ∧
        run.context.error_log = st'.context.error_log ++ [LogEntry.runLog e])) :=
  ⟨by decide, rfl, List.cons_ne_nil _ _,
   c2_deadlock_detection fixture_ok_oracle 0 fixture_dead_state (by decide) rfl
     (List.cons_ne_nil _ _)⟩

/-- Witness for C7 at a concrete engine, template, oracle and run id. -/
theorem c7_failure_containment_witness :
    fixture_engine.workflow_templates.lookup (lit "T") = some fixture_template ∧
    (∃ engine' run st outcome,
      run_steps fixture_ok_oracle (workflow_fuel (init_run_state fixture_template []).steps)
        (init_run_state fixture_template []) = (st, outcome) ∧
      execute_workflow fixture_engine fixture_ok_oracle (lit "T") [] (lit "R") =
        Except.ok (engine', lit "R") ∧
      engine'.completed_workflows.lookup (lit "R") = some run ∧
      engine'.active_workflows.lookup (lit "R") = Option.none ∧
      run.context.end_time = some 1 ∧
      get_workflow_status engine' (lit "R") = some (status_view run) ∧
      (outcome = RunOutcome.ok → run.status = WorkflowStatus.completed) ∧
      (∀ e, outcome = RunOutcome.err e → run.status = WorkflowStatus.failed ∧
        run.context.error_log = st.context.error_log ++ [LogEntry.runLog e])) :=
  ⟨rfl, c7_failure_containment fixture_engine fixture_ok_oracle (lit "T") fixture_template
    [] (lit "R") rfl⟩

/-- Witness for C8 at a concrete engine, template, oracle and run id. -/
theorem c8_template_immutability_witness :
    fixture_engine.workflow_templates.lookup (lit "T") = some fixture_template ∧
    (∃ engine',
      execute_workflow fixture_engine fixture_ok_oracle (lit "T") [] (lit "R") =
        Except.ok (engine', lit "R") ∧
      engine'.workflow_templates = fixture_engine.workflow_templates ∧
      engine'.workflow_templates.lookup (lit "T") = some fixture_template ∧
      (∀ s, copy_step s =
        { s with status := StepStatus.waiting,
                 result := Option.none, error := Option.none }) ∧
      (∀ s, (copy_step s).status = StepStatus.waiting ∧
        (copy_step s).result = Option.none ∧ (copy_step s).error = Option.none ∧
        (copy_step s).retry_count = s.retry_count ∧
        (copy_step s).parameters = s.parameters ∧
        (copy_step s).dependencies = s.dependencies)) :=
  ⟨rfl, c8_template_immutability fixture_engine fixture_ok_oracle (lit "T") fixture_template
    [] (lit "R") rfl⟩

/-- Witness for the amended C9 at a concrete engine. -/
theorem c9_progress_amended_witness :
    (∀ w ∈ (dict_merge fixture_done_engine.active_workflows
        fixture_done_engine.completed_workflows).map Prod.snd, w.steps.length ≠ 0) ∧
    (list_workflows fixture_done_engine Option.none =
      Except.ok
        ((((dict_merge fixture_done_engine.active_workflows
            fixture_done_engine.completed_workflows).map Prod.snd).filter
          (fun w => match (Option.none : Option WorkflowStatus) with
            | Option.none => true
            | some s => w.status == s)).map
          (fun w =>
            { id := w.id, name := w.name, status := w.status, tags := w.tags,
              progress :=
                (((w.steps.filter (fun s => s.status == StepStatus.completed)).length : ℚ) /
                  (w.steps.length : ℚ)) })) ∧
    (∀ w : Workflow, w.steps = [] →
      workflow_progress w = Except.error (lit "ZeroDivisionError"))) :=
  ⟨by decide, c9_progress_amended fixture_done_engine Option.none (by decide)⟩

/-! ### Claim C1: dependency gating -/

/-- The id-and-dependencies view of a step list; the engine's step
mutations never touch these two fields. -/
def id_deps (steps : List WorkflowStep) : List (Str × List Str) :=
  steps.map (fun s => (s.id, s.dependencies))

/-- Every start event in the trace is preceded by completion events for
all declared dependencies of the started step. -/
def dep_gated (steps0 : List WorkflowStep) (t : List Event) : Prop :=
  ∀ pre post sid, t = pre ++ Event.start sid :: post →
    ∀ s ∈ steps0, s.id = sid → ∀ d ∈ s.dependencies, Event.complete d ∈ pre

/-- The run-state invariant of the gating proof: completed steps have
their completion event in the trace, the trace so far is gated, and the
id/dependency view of the live steps still matches the definition. -/
structure GateInv (steps0 : List WorkflowStep) (st : RunState) : Prop where
  completed_traced : ∀ c ∈ st.completed, Event.complete c ∈ st.trace
  gated : dep_gated steps0 st.trace
  ids : id_deps st.steps = id_deps steps0

theorem update_step_id_deps (steps : List WorkflowStep) (sid : Str)
    (f : WorkflowStep → WorkflowStep)
    (hf : ∀ s, (f s).id = s.id ∧ (f s).dependencies = s.dependencies) :
    id_deps (update_step steps sid f) = id_deps steps := by
  unfold id_deps update_step
  rw [List.map_map]
  refine List.map_congr_left ?_
  intro s _
  show ((if s.id == sid then f s else s).id, (if s.id == sid then f s else s).dependencies) = _
  split
  · rw [(hf s).1, (hf s).2]
  · rfl

theorem dep_gated_append (steps0 : List WorkflowStep) (t ext : List Event)
    (hg : dep_gated steps0 t)
    (hext : ∀ sid, Event.start sid ∈ ext →
      ∀ s ∈ steps0, s.id = sid → ∀ d ∈ s.dependencies, Event.complete d ∈ t) :
    dep_gated steps0 (t ++ ext) := by
  intro pre post sid heq s hs hid d hd
  rcases List.append_eq_append_iff.mp heq with ⟨a, ha1, ha2⟩ | ⟨c, hc1, hc2⟩
  · -- the start lies inside `ext`; `pre` extends `t`
    have hstart : Event.start sid ∈ ext := by
      rw [ha2]
      exact List.mem_append_right a (List.mem_cons_self _ _)
    rw [ha1]
    exact List.mem_append_left a (hext sid hstart s hs hid d hd)
  · cases c with
    | nil =>
      -- `t = pre` and the start heads `ext`
      have hpre : t = pre := by simpa using hc1
      have hstart : Event.start sid ∈ ext := by
        rw [List.nil_append] at hc2
        rw [← hc2]
        exact List.mem_cons_self _ _
      rw [← hpre]
      exact hext sid hstart s hs hid d hd
    | cons x c' =>
      -- the start lies inside `t`: use the gating of `t`
      rw [List.cons_append] at hc2
      injection hc2 with h1 h2
      rw [← h1] at hc1
      exact hg pre c' sid hc1 s hs hid d hd

theorem execute_step_events (oracle : Oracle) (s : WorkflowStep)
    (ctx : WorkflowContext) (a : Nat) :
    ∀ e ∈ (execute_step oracle s ctx a).events,
      e = Event.start s.id ∨ e = Event.skip s.id := by
  intro e he
  unfold execute_step at he
  by_cases hc : check_step_conditions s.conditions ctx
  · rw [if_pos hc] at he
    cases horacle : oracle s.tool s.action (process_step_parameters s.parameters ctx) a with
    | ok v => rw [horacle] at he; simp at he; exact Or.inl he
    | error err => rw [horacle] at he; simp at he; exact Or.inl he
  · rw [if_neg hc] at he
    simp at he
    rcases he with he | he
    · exact Or.inl he
    · exact Or.inr he

theorem ready_steps_spec (st : RunState) (r : WorkflowStep)
    (hr : r ∈ ready_steps st) :
    r ∈ st.steps ∧ r.status = StepStatus.waiting ∧
    (∀ d ∈ r.dependencies, d ∈ st.completed) ∧ r.id ∉ st.completed := by
  unfold ready_steps at hr
  rw [List.mem_filter] at hr
  obtain ⟨hmem, hcond⟩ := hr
  simp only [Bool.and_eq_true, Bool.not_eq_true', List.all_eq_true, beq_iff_eq] at hcond
  obtain ⟨⟨hnc, hw⟩, hall⟩ := hcond
  refine ⟨hmem, hw, ?_, ?_⟩
  · intro d hd
    have := hall d hd
    simpa using this
  · intro hin
    have : st.completed.contains r.id = true := by simpa using hin
    rw [this] at hnc
    cases hnc

theorem ids_matched (steps0 steps : List WorkflowStep)
    (hids : id_deps steps = id_deps steps0)
    (hnodup : (steps0.map WorkflowStep.id).Nodup)
    (r : WorkflowStep) (hr : r ∈ steps)
    (s0 : WorkflowStep) (hs0 : s0 ∈ steps0) (heq : s0.id = r.id) :
    s0.dependencies = r.dependencies := by
  have hmem : (r.id, r.dependencies) ∈ id_deps steps0 := by
    rw [← hids]
    exact List.mem_map_of_mem _ hr
  obtain ⟨s1, hs1, hs1eq⟩ := List.mem_map.mp hmem
  have hid1 : s1.id = r.id := congrArg Prod.fst hs1eq
  have : s0 = s1 := List.inj_on_of_nodup_map hnodup hs0 hs1 (by rw [heq, hid1])
  rw [this]
  exact congrArg Prod.snd hs1eq

theorem st_after_fail_inv (steps0 : List WorkflowStep) (st : RunState)
    (step : WorkflowStep) (e : Str) (hinv : GateInv steps0 st) :
    GateInv steps0 (st_after_fail st step e) := by
  refine ⟨?_, ?_, ?_⟩
  · intro c hc
    exact List.mem_append_left _ (hinv.completed_traced c hc)
  · refine dep_gated_append steps0 st.trace _ hinv.gated ?_
    intro sid hsid
    simp at hsid
  · refine Eq.trans (update_step_id_deps st.steps step.id _ ?_) hinv.ids
    intro s
    split
    · exact ⟨rfl, rfl⟩
    · exact ⟨rfl, rfl⟩

theorem st_after_ok_inv (steps0 : List WorkflowStep) (st : RunState)
    (step : WorkflowStep) (v : Value) (hinv : GateInv steps0 st) :
    GateInv steps0 (st_after_ok st step v) := by
  refine ⟨?_, ?_, ?_⟩
  · intro c hc
    rcases List.mem_append.mp hc with hc | hc
    · exact List.mem_append_left _ (hinv.completed_traced c hc)
    · rw [List.mem_singleton.mp hc]
      exact List.mem_append_right _ (List.mem_singleton.mpr rfl)
  · refine dep_gated_append steps0 st.trace _ hinv.gated ?_
    intro sid hsid
    simp at hsid
  · exact Eq.trans (update_step_id_deps st.steps step.id _ (fun s => ⟨rfl, rfl⟩)) hinv.ids

theorem process_batch_inv (steps0 : List WorkflowStep) :
    ∀ (execs : List (WorkflowStep × StepExecResult)) (st st' : RunState)
      (oe : Option RunError),
      process_batch_results execs st = (st', oe) →
      GateInv steps0 st → GateInv steps0 st' := by
  intro execs
  induction execs with
  | nil =>
    intro st st' oe hpb hinv
    cases hpb
    exact hinv
  | cons p rest ih =>
    intro st st' oe hpb hinv
    obtain ⟨step, r⟩ := p
    cases hr : r.outcome with
    | error e =>
      rw [process_batch_cons_error step r rest st e hr] at hpb
      by_cases hretry : step.retry_count > 0
      · rw [if_pos hretry] at hpb
        exact ih _ _ _ hpb (st_after_fail_inv steps0 st step e hinv)
      · rw [if_neg hretry] at hpb
        cases hpb
        exact st_after_fail_inv steps0 st step e hinv
    | ok v =>
      rw [process_batch_cons_ok step r rest st v hr] at hpb
      exact ih _ _ _ hpb (st_after_ok_inv steps0 st step v hinv)

theorem batch_events_start (oracle : Oracle) (ctx : WorkflowContext)
    (tr : List Event) (ready : List WorkflowStep) (sid : Str)
    (hmem : Event.start sid ∈
      (ready.map (fun s => (s, execute_step oracle s ctx (attempt_number tr s.id)))).foldr
        (fun p acc => p.2.events ++ acc) []) :
    ∃ s ∈ ready, s.id = sid := by
  induction ready with
  | nil => simp at hmem
  | cons s rest ih =>
    rw [List.map_cons, List.foldr_cons] at hmem
    rcases List.mem_append.mp hmem with hmem | hmem
    · rcases execute_step_events oracle s ctx (attempt_number tr s.id) _ hmem with he | he
      · injection he with he
        exact ⟨s, List.mem_cons_self _ _, he.symm⟩
      · cases he
    · obtain ⟨x, hx, hxe⟩ := ih hmem
      exact ⟨x, List.mem_cons_of_mem _ hx, hxe⟩

theorem foldl_update_id_deps (execs : List (WorkflowStep × StepExecResult)) :
    ∀ steps : List WorkflowStep,
      id_deps (execs.foldl
        (fun acc p => update_step acc p.1.id (fun s => { s with status := p.2.status }))
        steps) = id_deps steps := by
  induction execs with
  | nil => intro steps; rfl
  | cons p rest ih =>
    intro steps
    rw [List.foldl_cons, ih]
    exact update_step_id_deps steps p.1.id _ (fun s => ⟨rfl, rfl⟩)

theorem run_batch_inv (steps0 : List WorkflowStep) (oracle : Oracle)
    (st st' : RunState) (oe : Option RunError)
    (hnodup : (steps0.map WorkflowStep.id).Nodup)
    (hrb : run_batch oracle st (ready_steps st) = (st', oe))
    (hinv : GateInv steps0 st) : GateInv steps0 st' := by
  unfold run_batch at hrb
  refine process_batch_inv steps0 _ _ _ _ hrb ?_
  refine ⟨?_, ?_, ?_⟩
  · intro c hc
    exact List.mem_append_left _ (hinv.completed_traced c hc)
  · refine dep_gated_append steps0 st.trace _ hinv.gated ?_
    intro sid hsid s hs hid d hd
    obtain ⟨rs, hrs, hrsid⟩ := batch_events_start oracle st.context st.trace _ sid hsid
    obtain ⟨hrmem, _, hrdeps, _⟩ := ready_steps_spec st rs hrs
    have hdeps_eq : s.dependencies = rs.dependencies :=
      ids_matched steps0 st.steps hinv.ids hnodup rs hrmem s hs (by rw [hid, hrsid])
    rw [hdeps_eq] at hd
    exact hinv.completed_traced d (hrdeps d hd)
  · rw [foldl_update_id_deps]
    exact hinv.ids

theorem run_steps_not_lt (oracle : Oracle) (fuel : Nat) (st : RunState)
    (hlt : ¬ st.completed.length < st.steps.length) :
    run_steps oracle (fuel + 1) st = (st, RunOutcome.ok) := by
  unfold run_steps
  rw [if_neg hlt]

theorem run_steps_done (oracle : Oracle) (fuel : Nat) (st : RunState)
    (hlt : st.completed.length < st.steps.length)
    (hready : ready_steps st = []) (hrem : remaining_steps st = []) :
    run_steps oracle (fuel + 1) st = (st, RunOutcome.ok) := by
  unfold run_steps
  rw [if_pos hlt, hready, hrem]

theorem run_steps_stuck (oracle : Oracle) (fuel : Nat) (st : RunState)
    (r : WorkflowStep) (rs : List WorkflowStep)
    (hlt : st.completed.length < st.steps.length)
    (hready : ready_steps st = []) (hrem : remaining_steps st = r :: rs) :
    run_steps oracle (fuel + 1) st =
      (st, RunOutcome.err (RunError.deadlock ((r :: rs).map WorkflowStep.id))) := by
  unfold run_steps
  rw [if_pos hlt, hready, hrem]

theorem run_steps_batch (oracle : Oracle) (fuel : Nat) (st : RunState)
    (r : WorkflowStep) (rs : List WorkflowStep)
    (hlt : st.completed.length < st.steps.length)
    (hready : ready_steps st = r :: rs) :
    run_steps oracle (fuel + 1) st =
      (match run_batch oracle st (r :: rs) with
       | (st', Option.none) => run_steps oracle fuel st'
       | (st', some e) => (st', RunOutcome.err e)) := by
  conv_lhs => unfold run_steps
  rw [if_pos hlt, hready]

theorem run_steps_inv (steps0 : List WorkflowStep) (oracle : Oracle)
    (hnodup : (steps0.map WorkflowStep.id).Nodup) :
    ∀ (fuel : Nat) (st : RunState), GateInv steps0 st →
      GateInv steps0 (run_steps oracle fuel st).1 := by
  intro fuel
  induction fuel with
  | zero => intro st hinv; exact hinv
  | succ fuel ih =>
    intro st hinv
    by_cases hlt : st.completed.length < st.steps.length
    · cases hready : ready_steps st with
      | nil =>
        cases hrem : remaining_steps st with
        | nil => rw [run_steps_done oracle fuel st hlt hready hrem]; exact hinv
        | cons r rs => rw [run_steps_stuck oracle fuel st r rs hlt hready hrem]; exact hinv
      | cons r rs =>
        rw [run_steps_batch oracle fuel st r rs hlt hready]
        cases hrb : run_batch oracle st (r :: rs) with
        | mk st1 oe =>
          have hinv1 : GateInv steps0 st1 :=
            run_batch_inv steps0 oracle st st1 oe hnodup (by rw [hready]; exact hrb) hinv
          cases oe with
          | none => exact ih st1 hinv1
          | some e => exact hinv1
    · rw [run_steps_not_lt oracle fuel st hlt]
      exact hinv

/-- C1: dependency gating.  In any workflow execution (over step ids that
are unique, as in every built-in template), a step is started only after
every step id in its declared dependency list has been completed: in the
full trace of the batch loop, every `start` event of a step is strictly
preceded by a `complete` event for each of its dependencies.  In
particular, for a linear chain `A → B → C` the engine never starts `B`
before `A` is completed and never starts `C` before `B` is completed. -/
theorem c1_dependency_gating (oracle : Oracle) (template : Workflow)
    (parameters : List (Str × Value))
    (hnodup : (template.steps.map WorkflowStep.id).Nodup) :
    ∀ pre post sid,
      (run_steps oracle (workflow_fuel (init_run_state template parameters).steps)
        (init_run_state template parameters)).1.trace = pre ++ Event.start sid :: post →
      ∀ s ∈ template.steps, s.id = sid → ∀ d ∈ s.dependencies,
        Event.complete d ∈ pre := by
  have h0 : GateInv template.steps (init_run_state template parameters) := by
    refine ⟨?_, ?_, ?_⟩
    · intro c hc
      cases hc
    · intro pre post sid heq
      exact absurd (List.append_eq_nil.mp heq.symm).2 (List.cons_ne_nil _ _)
    · unfold id_deps init_run_state
      rw [List.map_map]
      rfl
  exact (run_steps_inv template.steps oracle hnodup _ _ h0).gated

/-- The linear chain `A → B → C` (B depends on A, C depends on B). -/
def fixture_chain_template : Workflow :=
  { id := lit "chain", name := lit "chain", description := lit "",
    steps :=
      [{ id := lit "A", tool := lit "t", action := lit "a", parameters := [] },
       { id := lit "B", tool := lit "t", action := lit "a", parameters := [],
         dependencies := [lit "A"] },
       { id := lit "C", tool := lit "t", action := lit "a", parameters := [],
         dependencies := [lit "B"] }] }

/-- Witness for C1 at the concrete linear chain `A → B → C`. -/
theorem c1_dependency_gating_witness :
    (fixture_chain_template.steps.map WorkflowStep.id).Nodup ∧
    (∀ pre post sid,
      (run_steps fixture_ok_oracle
        (workflow_fuel (init_run_state fixture_chain_template []).steps)
        (init_run_state fixture_chain_template [])).1.trace =
          pre ++ Event.start sid :: post →
      ∀ s ∈ fixture_chain_template.steps, s.id = sid → ∀ d ∈ s.dependencies,
        Event.complete d ∈ pre) :=
  ⟨by decide, c1_dependency_gating fixture_ok_oracle fixture_chain_template [] (by decide)⟩

/-! ### Claim C10: skipped steps are absorbed as completed -/

theorem lookup_append_ne {α : Type} (k k' : Str) (v : α) (h : k' ≠ k) :
    ∀ d : List (Str × α), (d ++ [(k, v)]).lookup k' = d.lookup k'
  | [] => lookup_cons_ne _ _ _ _ h
  | (k1, v1) :: rest => by
    by_cases hk' : k' = k1
    · subst hk'
      rw [List.cons_append, lookup_cons_self, lookup_cons_self]
    · rw [List.cons_append, lookup_cons_ne _ _ _ _ hk', lookup_cons_ne _ _ _ _ hk']
      exact lookup_append_ne k k' v h rest

theorem lookup_pyDictSet_ne {α : Type} (k k' : Str) (v : α) (d : List (Str × α))
    (h : k' ≠ k) : (pyDictSet k v d).lookup k' = d.lookup k' := by
  unfold pyDictSet
  by_cases hs : (d.lookup k).isSome
  · rw [if_pos hs]
    clear hs
    induction d with
    | nil => rfl
    | cons kv rest ih =>
      obtain ⟨k1, v1⟩ := kv
      by_cases hk : k1 = k
      · subst hk
        rw [List.map_cons, if_pos (by simp)]
        rw [lookup_cons_ne _ _ _ _ h, lookup_cons_ne _ _ _ _ h]
        exact ih
      · rw [List.map_cons, if_neg (by simp [hk])]
        by_cases hk' : k' = k1
        · subst hk'
          rw [lookup_cons_self, lookup_cons_self]
        · rw [lookup_cons_ne _ _ _ _ hk', lookup_cons_ne _ _ _ _ hk']
          exact ih
  · rw [if_neg hs]
    exact lookup_append_ne k k' v h d

theorem update_step_ids (steps : List WorkflowStep) (sid : Str)
    (f : WorkflowStep → WorkflowStep) (hf : ∀ s, (f s).id = s.id) :
    (update_step steps sid f).map WorkflowStep.id = steps.map WorkflowStep.id := by
  unfold update_step
  rw [List.map_map]
  refine List.map_congr_left ?_
  intro s _
  show (if s.id == sid then f s else s).id = s.id
  split
  · exact hf s
  · rfl

theorem st_after_fail_ids (st : RunState) (step : WorkflowStep) (e : Str) :
    (st_after_fail st step e).steps.map WorkflowStep.id =
      st.steps.map WorkflowStep.id :=
  update_step_ids _ _ _ (fun s => by split <;> rfl)

theorem st_after_ok_ids (st : RunState) (step : WorkflowStep) (v : Value) :
    (st_after_ok st step v).steps.map WorkflowStep.id =
      st.steps.map WorkflowStep.id :=
  update_step_ids _ _ _ (fun _ => rfl)

theorem mem_update_step (steps : List WorkflowStep) (sid : Str)
    (f : WorkflowStep → WorkflowStep) (s' : WorkflowStep)
    (h : s' ∈ update_step steps sid f) :
    ∃ s ∈ steps, s' = (if s.id == sid then f s else s) := by
  obtain ⟨s, hs, hse⟩ := List.mem_map.mp h
  exact ⟨s, hs, hse.symm⟩

/-- The run-state invariant of the absorption proof: every step whose id
is in the completed set carries status Completed and a stored result; the
completed set is duplicate-free and covered by the live step ids; the live
step ids never change. -/
structure AbsorbInv (steps0 : List WorkflowStep) (st : RunState) : Prop where
  completed_status : ∀ s ∈ st.steps, s.id ∈ st.completed →
    s.status = StepStatus.completed ∧ (st.context.step_results.lookup s.id).isSome = true
  completed_nodup : st.completed.Nodup
  completed_sub : ∀ c ∈ st.completed, c ∈ st.steps.map WorkflowStep.id
  ids_eq : st.steps.map WorkflowStep.id = steps0.map WorkflowStep.id

theorem st_after_fail_absorb (steps0 : List WorkflowStep) (st : RunState)
    (step : WorkflowStep) (e : Str) (hnotin : step.id ∉ st.completed)
    (hinv : AbsorbInv steps0 st) : AbsorbInv steps0 (st_after_fail st step e) := by
  refine ⟨?_, hinv.completed_nodup, ?_, ?_⟩
  · intro s' hs' hid
    obtain ⟨s, hs, hse⟩ := mem_update_step _ _ _ _ hs'
    by_cases hb : (s.id == step.id) = true
    · rw [if_pos hb] at hse
      have : s'.id = s.id := by
        rw [hse]
        split
        · rfl
        · rfl
      rw [this, (by simpa using hb : s.id = step.id)] at hid
      exact absurd hid hnotin
    · rw [if_neg hb] at hse
      subst hse
      exact hinv.completed_status _ hs hid
  · intro c hc
    rw [st_after_fail_ids]
    exact hinv.completed_sub c hc
  · rw [st_after_fail_ids]
    exact hinv.ids_eq

theorem st_after_ok_absorb (steps0 : List WorkflowStep) (st : RunState)
    (step : WorkflowStep) (v : Value) (hnotin : step.id ∉ st.completed)
    (hmemid : step.id ∈ st.steps.map WorkflowStep.id)
    (hinv : AbsorbInv steps0 st) : AbsorbInv steps0 (st_after_ok st step v) := by
  have hids : (st_after_ok st step v).steps.map WorkflowStep.id =
      st.steps.map WorkflowStep.id := st_after_ok_ids st step v
  refine ⟨?_, ?_, ?_, ?_⟩
  · intro s' hs' hid
    obtain ⟨s, hs, hse⟩ := mem_update_step _ _ _ _ hs'
    by_cases hb : (s.id == step.id) = true
    · rw [if_pos hb] at hse
      subst hse
      constructor
      · rfl
      · show ((pyDictSet step.id v st.context.step_results).lookup s.id).isSome = true
        rw [(by simpa using hb : s.id = step.id), lookup_pyDictSet]
        rfl
    · rw [if_neg hb] at hse
      subst hse
      have hne : s'.id ≠ step.id := by simpa using hb
      have hid' : s'.id ∈ st.completed := by
        rcases List.mem_append.mp hid with h' | h'
        · exact h'
        · exact absurd (List.mem_singleton.mp h') hne
      obtain ⟨h1, h2⟩ := hinv.completed_status s' hs hid'
      refine ⟨h1, ?_⟩
      show ((pyDictSet step.id v st.context.step_results).lookup s'.id).isSome = true
      rw [lookup_pyDictSet_ne _ _ _ _ hne]
      exact h2
  · show (st.completed ++ [step.id]).Nodup
    rw [List.nodup_append]
    exact ⟨hinv.completed_nodup, List.nodup_singleton _,
      fun a ha hb => hnotin ((List.mem_singleton.mp hb) ▸ ha)⟩
  · intro c hc
    rw [hids]
    rcases List.mem_append.mp hc with h' | h'
    · exact hinv.completed_sub c h'
    · rw [List.mem_singleton.mp h']
      exact hmemid
  · rw [hids]
    exact hinv.ids_eq

theorem process_batch_absorb (steps0 : List WorkflowStep) :
    ∀ (execs : List (WorkflowStep × StepExecResult)) (st st' : RunState)
      (oe : Option RunError),
      process_batch_results execs st = (st', oe) →
      (∀ p ∈ execs, p.1.id ∉ st.completed ∧ p.1.id ∈ st.steps.map WorkflowStep.id) →
      (execs.map (fun p => p.1.id)).Nodup →
      AbsorbInv steps0 st → AbsorbInv steps0 st' := by
  intro execs
  induction execs with
  | nil =>
    intro st st' oe hpb _ _ hinv
    cases hpb
    exact hinv
  | cons p rest ih =>
    intro st st' oe hpb hids hnodup hinv
    obtain ⟨step, r⟩ := p
    have hstep := hids (step, r) (List.mem_cons_self _ _)
    rw [List.map_cons, List.nodup_cons] at hnodup
    cases hr : r.outcome with
    | error e =>
      rw [process_batch_cons_error step r rest st e hr] at hpb
      have hinv1 := st_after_fail_absorb steps0 st step e hstep.1 hinv
      have hrest : ∀ q ∈ rest, q.1.id ∉ (st_after_fail st step e).completed ∧
          q.1.id ∈ (st_after_fail st step e).steps.map WorkflowStep.id := by
        intro q hq
        obtain ⟨hq1, hq2⟩ := hids q (List.mem_cons_of_mem _ hq)
        refine ⟨hq1, ?_⟩
        rw [st_after_fail_ids]
        exact hq2
      by_cases hretry : step.retry_count > 0
      · rw [if_pos hretry] at hpb
        exact ih _ _ _ hpb hrest hnodup.2 hinv1
      · rw [if_neg hretry] at hpb
        cases hpb
        exact hinv1
    | ok v =>
      rw [process_batch_cons_ok step r rest st v hr] at hpb
      have hinv1 := st_after_ok_absorb steps0 st step v hstep.1 hstep.2 hinv
      have hrest : ∀ q ∈ rest, q.1.id ∉ (st_after_ok st step v).completed ∧
          q.1.id ∈ (st_after_ok st step v).steps.map WorkflowStep.id := by
        intro q hq
        obtain ⟨hq1, hq2⟩ := hids q (List.mem_cons_of_mem _ hq)
        constructor
        · intro hmem
          rcases List.mem_append.mp hmem with h' | h'
          · exact hq1 h'
          · exact hnodup.1 (by
              rw [← List.mem_singleton.mp h']
              exact List.mem_map_of_mem _ hq)
        · rw [st_after_ok_ids]
          exact hq2
      exact ih _ _ _ hpb hrest hnodup.2 hinv1

theorem ids_of_id_deps (l : List WorkflowStep) :
    l.map WorkflowStep.id = (id_deps l).map Prod.fst := by
  unfold id_deps
  rw [List.map_map]
  rfl

theorem foldl_update_ids (execs : List (WorkflowStep × StepExecResult))
    (steps : List WorkflowStep) :
    (execs.foldl
      (fun acc p => update_step acc p.1.id (fun s => { s with status := p.2.status }))
      steps).map WorkflowStep.id = steps.map WorkflowStep.id := by
  rw [ids_of_id_deps, foldl_update_id_deps, ← ids_of_id_deps]

theorem foldl_update_untouched (execs : List (WorkflowStep × StepExecResult)) :
    ∀ (steps : List WorkflowStep) (s' : WorkflowStep),
      s' ∈ execs.foldl
        (fun acc p => update_step acc p.1.id (fun s => { s with status := p.2.status }))
        steps →
      ∃ s ∈ steps, s'.id = s.id ∧
        (s'.id ∉ execs.map (fun p => p.1.id) → s' = s) := by
  induction execs with
  | nil =>
    intro steps s' hs'
    exact ⟨s', hs', rfl, fun _ => rfl⟩
  | cons p rest ih =>
    intro steps s' hs'
    rw [List.foldl_cons] at hs'
    obtain ⟨s1, hs1, hid1, huntouched1⟩ := ih _ s' hs'
    obtain ⟨s, hs, hse⟩ := mem_update_step _ _ _ _ hs1
    have hid : s1.id = s.id := by
      rw [hse]
      split
      · rfl
      · rfl
    refine ⟨s, hs, hid1.trans hid, ?_⟩
    intro hnot
    rw [List.map_cons] at hnot
    have hnp : s'.id ≠ p.1.id := fun hc => hnot (hc ▸ List.mem_cons_self _ _)
    have hnr : s'.id ∉ rest.map (fun p => p.1.id) :=
      fun hc => hnot (List.mem_cons_of_mem _ hc)
    have h1 : s' = s1 := huntouched1 hnr
    have h2 : (s.id == p.1.id) = false := by
      simp only [beq_eq_false_iff_ne]
      intro hc
      exact hnp (by rw [h1, hid, hc])
    rw [h1, hse, if_neg (by rw [h2]; exact Bool.false_ne_true)]

theorem run_batch_absorb (steps0 : List WorkflowStep) (oracle : Oracle)
    (st st' : RunState) (oe : Option RunError)
    (hnodup0 : (steps0.map WorkflowStep.id).Nodup)
    (hrb : run_batch oracle st (ready_steps st) = (st', oe))
    (hinv : AbsorbInv steps0 st) : AbsorbInv steps0 st' := by
  unfold run_batch at hrb
  have hreadyid : ∀ r ∈ ready_steps st, r.id ∉ st.completed ∧
      r.id ∈ st.steps.map WorkflowStep.id := by
    intro r hr
    obtain ⟨hmem, _, _, hnotin⟩ := ready_steps_spec st r hr
    exact ⟨hnotin, List.mem_map_of_mem _ hmem⟩
  have hids1 : ((ready_steps st).map
      (fun s => (s, execute_step oracle s st.context (attempt_number st.trace s.id)))).map
        (fun p => p.1.id) = (ready_steps st).map WorkflowStep.id := by
    rw [List.map_map]
    rfl
  refine process_batch_absorb steps0 _ _ _ _ hrb ?_ ?_ ?_
  · intro p hp
    obtain ⟨r, hr, hre⟩ := List.mem_map.mp hp
    have := hreadyid r hr
    rw [← hre]
    refine ⟨this.1, ?_⟩
    show r.id ∈ (((ready_steps st).map _).foldl _ st.steps).map WorkflowStep.id
    rw [foldl_update_ids]
    exact this.2
  · rw [hids1]
    refine List.Nodup.sublist ((List.filter_sublist st.steps).map WorkflowStep.id) ?_
    rw [hinv.ids_eq]
    exact hnodup0
  · refine ⟨?_, hinv.completed_nodup, ?_, ?_⟩
    · intro s' hs' hid
      obtain ⟨s, hs, hideq, huntouched⟩ := foldl_update_untouched _ _ s' hs'
      have hnot : s'.id ∉ ((ready_steps st).map
          (fun s => (s, execute_step oracle s st.context (attempt_number st.trace s.id)))).map
            (fun p => p.1.id) := by
        rw [hids1]
        intro hc
        obtain ⟨r, hr, hre⟩ := List.mem_map.mp hc
        exact (hreadyid r hr).1 (hre ▸ hid)
      rw [huntouched hnot]
      rw [huntouched hnot] at hid
      exact hinv.completed_status s hs (hideq ▸ hid)
    · intro c hc
      show c ∈ (((ready_steps st).map _).foldl _ st.steps).map WorkflowStep.id
      rw [foldl_update_ids]
      exact hinv.completed_sub c hc
    · show (((ready_steps st).map _).foldl _ st.steps).map WorkflowStep.id = _
      rw [foldl_update_ids]
      exact hinv.ids_eq

theorem run_steps_absorb (steps0 : List WorkflowStep) (oracle : Oracle)
    (hnodup0 : (steps0.map WorkflowStep.id).Nodup) :
    ∀ (fuel : Nat) (st st' : RunState),
      run_steps oracle fuel st = (st', RunOutcome.ok) → AbsorbInv steps0 st →
      ∀ s ∈ st'.steps, s.status = StepStatus.completed ∧
        (st'.context.step_results.lookup s.id).isSome = true := by
  intro fuel
  induction fuel with
  | zero =>
    intro st st' hrun hinv
    exact absurd (show RunOutcome.fuelOut = RunOutcome.ok from congrArg Prod.snd hrun)
      (by simp)
  | succ fuel ih =>
    intro st st' hrun hinv
    by_cases hlt : st.completed.length < st.steps.length
    · cases hready : ready_steps st with
      | nil =>
        cases hrem : remaining_steps st with
        | nil =>
          rw [run_steps_done oracle fuel st hlt hready hrem] at hrun
          have hst : st = st' := congrArg Prod.fst hrun
          subst hst
          intro s hs
          have hcov := List.filter_eq_nil_iff.mp hrem s hs
          have : s.id ∈ st.completed := by
            by_contra hc
            exact hcov (by simpa using hc)
          exact hinv.completed_status s hs this
        | cons r rs =>
          rw [run_steps_stuck oracle fuel st r rs hlt hready hrem] at hrun
          exact absurd (show RunOutcome.err (RunError.deadlock
              ((r :: rs).map WorkflowStep.id)) = RunOutcome.ok from congrArg Prod.snd hrun)
            (by simp)
      | cons r rs =>
        rw [run_steps_batch oracle fuel st r rs hlt hready] at hrun
        cases hrb : run_batch oracle st (r :: rs) with
        | mk st1 oe =>
          have hinv1 : AbsorbInv steps0 st1 :=
            run_batch_absorb steps0 oracle st st1 oe hnodup0
              (by rw [hready]; exact hrb) hinv
          rw [hrb] at hrun
          cases oe with
          | none => exact ih st1 st' hrun hinv1
          | some e =>
            exact absurd (show RunOutcome.err e = RunOutcome.ok from congrArg Prod.snd hrun)
              (by simp)
    · rw [run_steps_not_lt oracle fuel st hlt] at hrun
      have hst : st = st' := congrArg Prod.fst hrun
      subst hst
      intro s hs
      have hsub : List.Subperm st.completed (st.steps.map WorkflowStep.id) :=
        (hinv.completed_nodup).subperm hinv.completed_sub
      have hlen : (st.steps.map WorkflowStep.id).length ≤ st.completed.length := by
        rw [List.length_map]
        omega
      have hperm := hsub.perm_of_length_le hlen
      have : s.id ∈ st.completed := hperm.symm.subset (List.mem_map_of_mem _ hs)
      exact hinv.completed_status s hs this

/-- C10: skipped steps are absorbed as completed.  A step whose conditions
evaluate false is marked Skipped by the per-step executor, which returns
`None` without invoking the capability (the result is a constant,
independent of the oracle); the batch loop then records it as Completed
with `None` stored under its id.  Consequently, when a run (over unique
step ids) finishes with status Completed, every step of the retained run
has status Completed — none ends Skipped — and `step_results` holds an
entry for every step id. -/
theorem c10_skip_absorption (engine : WorkflowEngine) (oracle : Oracle)
    (workflow_id : Str) (template : Workflow)
    (parameters : List (Str × Value)) (fresh_id : Str)
    (h : engine.workflow_templates.lookup workflow_id = some template)
    (hnodup : (template.steps.map WorkflowStep.id).Nodup) :
    (∀ (step : WorkflowStep) (ctx : WorkflowContext) (attempt : Nat),
      check_step_conditions step.conditions ctx = false →
      execute_step oracle step ctx attempt =
        { status := StepStatus.skipped, outcome := Except.ok Value.none,
          events := [Event.start step.id, Event.skip step.id] }) ∧
    (∃ engine' run,
      execute_workflow engine oracle workflow_id parameters fresh_id =
        Except.ok (engine', fresh_id) ∧
      engine'.completed_workflows.lookup fresh_id = some run ∧
      (run.status = WorkflowStatus.completed →
        ∀ s ∈ run.steps, s.status = StepStatus.completed ∧
          (run.context.step_results.lookup s.id).isSome = true)) := by
  constructor
  · intro step ctx attempt hc
    unfold execute_step
    rw [if_neg (by rw [hc]; exact Bool.false_ne_true)]
  · have hinv0 : AbsorbInv template.steps (init_run_state template parameters) := by
      refine ⟨?_, List.nodup_nil, ?_, ?_⟩
      · intro s _ hid
        cases hid
      · intro c hc
        cases hc
      · show (template.steps.map copy_step).map WorkflowStep.id = _
        rw [List.map_map]
        rfl
    refine ⟨_, finished_instance template fresh_id
        (run_steps oracle (workflow_fuel (init_run_state template parameters).steps)
          (init_run_state template parameters)).1
        (run_steps oracle (workflow_fuel (init_run_state template parameters).steps)
          (init_run_state template parameters)).2,
      execute_workflow_eq engine oracle workflow_id template parameters fresh_id _ _ h rfl,
      lookup_pyDictSet _ _ _, ?_⟩
    intro hstatus
    cases houtcome : (run_steps oracle (workflow_fuel (init_run_state template parameters).steps)
        (init_run_state template parameters)).2 with
    | ok =>
      have hrun : run_steps oracle (workflow_fuel (init_run_state template parameters).steps)
          (init_run_state template parameters) =
        ((run_steps oracle (workflow_fuel (init_run_state template parameters).steps)
          (init_run_state template parameters)).1, RunOutcome.ok) := by
        rw [← houtcome]
      exact run_steps_absorb template.steps oracle hnodup _ _ _ hrun hinv0
    | err e =>
      rw [houtcome] at hstatus
      exact absurd (show WorkflowStatus.failed = WorkflowStatus.completed from hstatus)
        (by decide)
    | fuelOut =>
      rw [houtcome] at hstatus
      exact absurd (show WorkflowStatus.failed = WorkflowStatus.completed from hstatus)
        (by decide)

/-- A workflow mixing a skipped step (its `variable_exists` condition is
false when no variables are supplied) and an ordinary step. -/
def fixture_skip_template : Workflow :=
  { id := lit "S", name := lit "S", description := lit "",
    steps :=
      [{ id := lit "A", tool := lit "t", action := lit "a", parameters := [],
         conditions := [Condition.variable_exists (lit "nope")] },
       { id := lit "B", tool := lit "t", action := lit "a", parameters := [] }] }

/-- A fixture engine holding `fixture_skip_template`. -/
def fixture_skip_engine : WorkflowEngine :=
  { workflow_templates := [(lit "S", fixture_skip_template)] }

/-- Witness for C10 at the concrete engine with a skipped and a normal
step. -/
theorem c10_skip_absorption_witness :
    fixture_skip_engine.workflow_templates.lookup (lit "S") = some fixture_skip_template ∧
    (fixture_skip_template.steps.map WorkflowStep.id).Nodup ∧
    ((∀ (step : WorkflowStep) (ctx : WorkflowContext) (attempt : Nat),
      check_step_conditions step.conditions ctx = false →
      execute_step fixture_ok_oracle step ctx attempt =
        { status := StepStatus.skipped, outcome := Except.ok Value.none,
          events := [Event.start step.id, Event.skip step.id] }) ∧
    (∃ engine' run,
      execute_workflow fixture_skip_engine fixture_ok_oracle (lit "S") [] (lit "R") =
        Except.ok (engine', lit "R") ∧
      engine'.completed_workflows.lookup (lit "R") = some run ∧
      (run.status = WorkflowStatus.completed →
        ∀ s ∈ run.steps, s.status = StepStatus.completed ∧
          (run.context.step_results.lookup s.id).isSome = true))) :=
  ⟨rfl, by decide,
   c10_skip_absorption fixture_skip_engine fixture_ok_oracle (lit "S")
     fixture_skip_template [] (lit "R") rfl (by decide)⟩

/-! ### Claim C3: retry semantics

The states a run over a single dependency-free, condition-free step moves
through: after `j` failed attempts the step is back to Waiting with `j`
fewer retries, the error log holds `j` step entries, and the trace shows
`j` start/fail pairs. -/

/-- The single step object after `j` failed attempts. -/
def retry_step_at (s : WorkflowStep) (emsg : Nat → Str) (j : Nat) : WorkflowStep :=
  { copy_step s with
    error := (match j with | 0 => Option.none | Nat.succ jj => some (emsg jj)),
    retry_count := s.retry_count - (j : Int) }

/-- The error log after `j` failed attempts. -/
def retry_log (i : Str) (emsg : Nat → Str) : Nat → List LogEntry
  | 0 => []
  | Nat.succ j => retry_log i emsg j ++ [LogEntry.stepLog i (emsg j)]

/-- The trace after `j` failed attempts. -/
def retry_trace (i : Str) : Nat → List Event
  | 0 => []
  | Nat.succ j => retry_trace i j ++ [Event.start i, Event.fail i]

/-- The run state after `j` failed attempts of the single step. -/
def retry_state (s : WorkflowStep) (parameters : List (Str × Value)) (emsg : Nat → Str)
    (j : Nat) : RunState :=
  { steps := [retry_step_at s emsg j],
    context := { variables_ := parameters, step_results := [],
                 error_log := retry_log s.id emsg j,
                 start_time := some 0, end_time := Option.none },
    completed := [], trace := retry_trace s.id j }

theorem attempt_retry_trace (i : Str) : ∀ j, attempt_number (retry_trace i j) i = j
  | 0 => rfl
  | Nat.succ j => by
    unfold retry_trace attempt_number
    rw [List.countP_append]
    have h1 : attempt_number (retry_trace i j) i = j := attempt_retry_trace i j
    unfold attempt_number at h1
    rw [h1]
    simp [List.countP_cons]

theorem ready_retry (s : WorkflowStep) (parameters : List (Str × Value))
    (emsg : Nat → Str) (j : Nat) (hdeps : s.dependencies = []) :
    ready_steps (retry_state s parameters emsg j) = [retry_step_at s emsg j] := by
  unfold ready_steps retry_state
  rw [List.filter_cons]
  rw [if_pos ?_]
  · rfl
  · show (!(List.contains [] (retry_step_at s emsg j).id) &&
      ((retry_step_at s emsg j).status == StepStatus.waiting) &&
      (retry_step_at s emsg j).dependencies.all (fun d => List.contains [] d)) = true
    rw [show (retry_step_at s emsg j).dependencies = s.dependencies from rfl, hdeps]
    rfl

theorem retry_state_zero (template : Workflow) (s : WorkflowStep)
    (parameters : List (Str × Value)) (emsg : Nat → Str)
    (hsteps : template.steps = [s]) :
    init_run_state template parameters = retry_state s parameters emsg 0 := by
  unfold init_run_state retry_state retry_step_at retry_log retry_trace
  rw [hsteps]
  simp [copy_step]

theorem exec_retry (oracle : Oracle) (s : WorkflowStep)
    (parameters : List (Str × Value)) (emsg : Nat → Str) (j : Nat)
    (hconds : s.conditions = []) :
    execute_step oracle (retry_step_at s emsg j)
      (retry_state s parameters emsg j).context
      (attempt_number (retry_state s parameters emsg j).trace (retry_step_at s emsg j).id) =
    (match oracle s.tool s.action
        (process_step_parameters s.parameters (retry_state s parameters emsg j).context) j with
     | Except.ok v =>
       { status := StepStatus.running, outcome := Except.ok v,
         events := [Event.start s.id] }
     | Except.error e =>
       { status := StepStatus.running, outcome := Except.error e,
         events := [Event.start s.id] }) := by
  have hatt : attempt_number (retry_state s parameters emsg j).trace
      (retry_step_at s emsg j).id = j := attempt_retry_trace s.id j
  rw [hatt]
  unfold execute_step
  rw [if_pos ?hc]
  case hc =>
    rw [show (retry_step_at s emsg j).conditions = s.conditions from rfl, hconds]
    rfl
  rw [show (retry_step_at s emsg j).tool = s.tool from rfl,
      show (retry_step_at s emsg j).action = s.action from rfl,
      show (retry_step_at s emsg j).parameters = s.parameters from rfl]
  cases oracle s.tool s.action
      (process_step_parameters s.parameters (retry_state s parameters emsg j).context) j with
  | ok v => rfl
  | error e => rfl

theorem run_batch_retry_fail (oracle : Oracle) (s : WorkflowStep)
    (parameters : List (Str × Value)) (emsg : Nat → Str) (j : Nat)
    (hconds : s.conditions = [])
    (hretry : (j : Int) < s.retry_count)
    (hfail : oracle s.tool s.action
      (process_step_parameters s.parameters (retry_state s parameters emsg j).context) j =
      Except.error (emsg j)) :
    run_batch oracle (retry_state s parameters emsg j) [retry_step_at s emsg j] =
      (retry_state s parameters emsg (j + 1), Option.none) := by
  have hexec := exec_retry oracle s parameters emsg j hconds
  rw [hfail] at hexec
  have hxr : (retry_step_at s emsg j).retry_count > 0 := by
    show s.retry_count - (j : Int) > 0
    omega
  unfold run_batch
  simp only [List.map_cons, List.map_nil, hexec, List.foldl_cons, List.foldl_nil,
    List.foldr_cons, List.foldr_nil]
  rw [process_batch_cons_error _ _ _ _ _ rfl, if_pos hxr]
  unfold process_batch_results
  congr 1
  unfold st_after_fail update_step retry_state
  simp only [List.map_cons, List.map_nil, beq_self_eq_true, if_true, hxr, RunState.mk.injEq,
    WorkflowContext.mk.injEq, List.cons.injEq, and_true, true_and]
  refine ⟨?_, rfl, ?_⟩
  · simp [retry_step_at, copy_step]
    omega
  · simp [retry_trace, retry_step_at, copy_step]

theorem retry_iteration (oracle : Oracle) (s : WorkflowStep)
    (parameters : List (Str × Value)) (emsg : Nat → Str) (j fuel : Nat)
    (hdeps : s.dependencies = []) (hconds : s.conditions = [])
    (hretry : (j : Int) < s.retry_count)
    (hfail : oracle s.tool s.action
      (process_step_parameters s.parameters (retry_state s parameters emsg j).context) j =
      Except.error (emsg j)) :
    run_steps oracle (fuel + 1) (retry_state s parameters emsg j) =
      run_steps oracle fuel (retry_state s parameters emsg (j + 1)) := by
  rw [run_steps_batch oracle fuel (retry_state s parameters emsg j)
    (retry_step_at s emsg j) [] Nat.one_pos (ready_retry s parameters emsg j hdeps)]
  rw [run_batch_retry_fail oracle s parameters emsg j hconds hretry hfail]

theorem run_batch_retry_exhaust (oracle : Oracle) (s : WorkflowStep)
    (parameters : List (Str × Value)) (emsg : Nat → Str) (rn : Nat)
    (hconds : s.conditions = [])
    (hxr : ¬((retry_step_at s emsg rn).retry_count > 0))
    (hfail : oracle s.tool s.action
      (process_step_parameters s.parameters (retry_state s parameters emsg rn).context) rn =
      Except.error (emsg rn)) :
    run_batch oracle (retry_state s parameters emsg rn) [retry_step_at s emsg rn] =
      ({ steps := [{ retry_step_at s emsg rn with
                       status := StepStatus.failed, error := some (emsg rn) }],
         context := { variables_ := parameters, step_results := [],
                      error_log := retry_log s.id emsg rn ++
                        [LogEntry.stepLog (retry_step_at s emsg rn).id (emsg rn)],
                      start_time := some 0, end_time := Option.none },
         completed := [], trace := retry_trace s.id rn ++
           [Event.start s.id, Event.fail s.id] },
       some (RunError.stepFailure (emsg rn))) := by
  have hexec := exec_retry oracle s parameters emsg rn hconds
  rw [hfail] at hexec
  unfold run_batch
  simp only [List.map_cons, List.map_nil, hexec, List.foldl_cons, List.foldl_nil,
    List.foldr_cons, List.foldr_nil]
  rw [process_batch_cons_error _ _ _ _ _ rfl, if_neg hxr]
  congr 1
  unfold st_after_fail update_step retry_state
  simp only [List.map_cons, List.map_nil, beq_self_eq_true, if_true, RunState.mk.injEq,
    WorkflowContext.mk.injEq, List.cons.injEq, and_true, true_and]
  refine ⟨?_, ?_⟩
  · rw [if_neg hxr]
  · simp [retry_step_at, copy_step]

theorem retry_exhaust (oracle : Oracle) (s : WorkflowStep)
    (parameters : List (Str × Value)) (emsg : Nat → Str) (rn fuel : Nat)
    (hdeps : s.dependencies = []) (hconds : s.conditions = [])
    (hrn : s.retry_count = (rn : Int))
    (hfail : oracle s.tool s.action
      (process_step_parameters s.parameters (retry_state s parameters emsg rn).context) rn =
      Except.error (emsg rn)) :
    ∃ st', run_steps oracle (fuel + 1) (retry_state s parameters emsg rn) =
      (st', RunOutcome.err (RunError.stepFailure (emsg rn))) ∧
      LogEntry.stepLog s.id (emsg rn) ∈ st'.context.error_log := by
  have hxr : ¬((retry_step_at s emsg rn).retry_count > 0) := by
    show ¬(s.retry_count - (rn : Int) > 0)
    omega
  refine ⟨{ steps := [{ retry_step_at s emsg rn with
                          status := StepStatus.failed, error := some (emsg rn) }],
            context := { variables_ := parameters, step_results := [],
                         error_log := retry_log s.id emsg rn ++
                           [LogEntry.stepLog (retry_step_at s emsg rn).id (emsg rn)],
                         start_time := some 0, end_time := Option.none },
            completed := [], trace := retry_trace s.id rn ++
              [Event.start s.id, Event.fail s.id] }, ?_, ?_⟩
  · rw [run_steps_batch oracle fuel (retry_state s parameters emsg rn)
      (retry_step_at s emsg rn) [] Nat.one_pos (ready_retry s parameters emsg rn hdeps)]
    rw [run_batch_retry_exhaust oracle s parameters emsg rn hconds hxr hfail]
  · show LogEntry.stepLog s.id (emsg rn) ∈
      retry_log s.id emsg rn ++ [LogEntry.stepLog (retry_step_at s emsg rn).id (emsg rn)]
    exact List.mem_append_right _ (List.mem_singleton.mpr rfl)

/-- The run state after `k` failures and then a success of the single
step. -/
def retry_done_state (s : WorkflowStep) (parameters : List (Str × Value))
    (emsg : Nat → Str) (k : Nat) (v : Value) : RunState :=
  { steps := [{ retry_step_at s emsg k with
                  status := StepStatus.completed, result := some v }],
    context := { variables_ := parameters, step_results := [(s.id, v)],
                 error_log := retry_log s.id emsg k,
                 start_time := some 0, end_time := Option.none },
    completed := [s.id],
    trace := retry_trace s.id k ++ [Event.start s.id, Event.complete s.id] }

theorem run_batch_retry_ok (oracle : Oracle) (s : WorkflowStep)
    (parameters : List (Str × Value)) (emsg : Nat → Str) (k : Nat) (v : Value)
    (hconds : s.conditions = [])
    (hok : oracle s.tool s.action
      (process_step_parameters s.parameters (retry_state s parameters emsg k).context) k =
      Except.ok v) :
    run_batch oracle (retry_state s parameters emsg k) [retry_step_at s emsg k] =
      (retry_done_state s parameters emsg k v, Option.none) := by
  have hexec := exec_retry oracle s parameters emsg k hconds
  rw [hok] at hexec
  unfold run_batch
  simp only [List.map_cons, List.map_nil, hexec, List.foldl_cons, List.foldl_nil,
    List.foldr_cons, List.foldr_nil]
  rw [process_batch_cons_ok _ _ _ _ _ rfl]
  unfold process_batch_results
  congr 1
  unfold st_after_ok update_step retry_state retry_done_state
  simp only [List.map_cons, List.map_nil, beq_self_eq_true, if_true, RunState.mk.injEq,
    WorkflowContext.mk.injEq, List.cons.injEq, and_true, true_and]
  refine ⟨rfl, rfl, ?_⟩
  show retry_trace s.id k ++ ([Event.start s.id] ++ []) ++
    [Event.complete (retry_step_at s emsg k).id] =
    retry_trace s.id k ++ [Event.start s.id, Event.complete s.id]
  simp [retry_step_at, copy_step]

theorem retry_success_step (oracle : Oracle) (s : WorkflowStep)
    (parameters : List (Str × Value)) (emsg : Nat → Str) (k fuel : Nat) (v : Value)
    (hdeps : s.dependencies = []) (hconds : s.conditions = [])
    (hok : oracle s.tool s.action
      (process_step_parameters s.parameters (retry_state s parameters emsg k).context) k =
      Except.ok v) :
    ∃ st', run_steps oracle (fuel + 2) (retry_state s parameters emsg k) =
      (st', RunOutcome.ok) := by
  refine ⟨retry_done_state s parameters emsg k v, ?_⟩
  rw [show fuel + 2 = (fuel + 1) + 1 from rfl]
  rw [run_steps_batch oracle (fuel + 1) (retry_state s parameters emsg k)
    (retry_step_at s emsg k) [] Nat.one_pos (ready_retry s parameters emsg k hdeps)]
  rw [run_batch_retry_ok oracle s parameters emsg k v hconds hok]
  exact run_steps_not_lt oracle fuel (retry_done_state s parameters emsg k v)
    (by show ¬((1 : Nat) < 1); omega)

theorem retry_fail_run (oracle : Oracle) (s : WorkflowStep)
    (parameters : List (Str × Value)) (emsg : Nat → Str) (rn : Nat)
    (hdeps : s.dependencies = []) (hconds : s.conditions = [])
    (hrn : s.retry_count = (rn : Int))
    (hfail : ∀ p j, j ≤ rn → oracle s.tool s.action p j = Except.error (emsg j)) :
    ∀ (c j f : Nat), j + c = rn →
      ∃ st', run_steps oracle (c + (f + 1)) (retry_state s parameters emsg j) =
        (st', RunOutcome.err (RunError.stepFailure (emsg rn))) ∧
        LogEntry.stepLog s.id (emsg rn) ∈ st'.context.error_log := by
  intro c
  induction c with
  | zero =>
    intro j f hj
    have hj' : j = rn := by omega
    subst hj'
    rw [show 0 + (f + 1) = f + 1 from by omega]
    exact retry_exhaust oracle s parameters emsg j f hdeps hconds hrn
      (hfail _ j (le_refl j))
  | succ c ih =>
    intro j f hj
    have hlt : (j : Int) < s.retry_count := by
      rw [hrn]
      exact_mod_cast (by omega : j < rn)
    rw [show c + 1 + (f + 1) = (c + (f + 1)) + 1 from by omega]
    rw [retry_iteration oracle s parameters emsg j (c + (f + 1)) hdeps hconds hlt
      (hfail _ j (by omega))]
    exact ih (j + 1) f (by omega)

theorem retry_success_run (oracle : Oracle) (s : WorkflowStep)
    (parameters : List (Str × Value)) (emsg : Nat → Str) (k : Nat) (v : Value)
    (hdeps : s.dependencies = []) (hconds : s.conditions = [])
    (hkr : (k : Int) ≤ s.retry_count)
    (hfails : ∀ p j, j < k → oracle s.tool s.action p j = Except.error (emsg j))
    (hok : ∀ p, oracle s.tool s.action p k = Except.ok v) :
    ∀ (c j f : Nat), j + c = k →
      ∃ st', run_steps oracle (c + (f + 2)) (retry_state s parameters emsg j) =
        (st', RunOutcome.ok) := by
  intro c
  induction c with
  | zero =>
    intro j f hj
    have hj' : j = k := by omega
    subst hj'
    rw [show 0 + (f + 2) = f + 2 from by omega]
    exact retry_success_step oracle s parameters emsg j f v hdeps hconds (hok _)
  | succ c ih =>
    intro j f hj
    have hlt : (j : Int) < s.retry_count := by
      have : j < k := by omega
      omega
    rw [show c + 1 + (f + 2) = (c + (f + 2)) + 1 from by omega]
    rw [retry_iteration oracle s parameters emsg j (c + (f + 2)) hdeps hconds hlt
      (hfails _ j (by omega))]
    exact ih (j + 1) f (by omega)

/-- C3: retry semantics over a workflow consisting of one dependency-free,
condition-free step with retry budget `r = retry_count ≥ 0`.  If the
capability invocation fails on every one of the `r + 1` permitted attempts
(attempt indices `0 … r`), the run ends with status Failed and the error
log contains a per-step entry naming that step id.  If it fails fewer than
`r` times and then succeeds (each failure decrements the remaining budget
and resets the step to Waiting for a later attempt), the run ends with
status Completed. -/
theorem c3_retry_semantics (engine : WorkflowEngine) (oracle : Oracle)
    (workflow_id : Str) (template : Workflow) (s : WorkflowStep)
    (parameters : List (Str × Value)) (fresh_id : Str) (emsg : Nat → Str)
    (h : engine.workflow_templates.lookup workflow_id = some template)
    (hsteps : template.steps = [s])
    (hdeps : s.dependencies = []) (hconds : s.conditions = [])
    (hr0 : 0 ≤ s.retry_count) :
    ((∀ (p : List (Str × Value)) (j : Nat), (j : Int) ≤ s.retry_count →
        oracle s.tool s.action p j = Except.error (emsg j)) →
      ∃ engine' run,
        execute_workflow engine oracle workflow_id parameters fresh_id =
          Except.ok (engine', fresh_id) ∧
        engine'.completed_workflows.lookup fresh_id = some run ∧
        run.status = WorkflowStatus.failed ∧
        ∃ m, LogEntry.stepLog s.id m ∈ run.context.error_log) ∧
    (∀ (k : Nat) (v : Value), (k : Int) < s.retry_count →
      (∀ (p : List (Str × Value)) (j : Nat), j < k →
        oracle s.tool s.action p j = Except.error (emsg j)) →
      (∀ p, oracle s.tool s.action p k = Except.ok v) →
      ∃ engine' run,
        execute_workflow engine oracle workflow_id parameters fresh_id =
          Except.ok (engine', fresh_id) ∧
        engine'.completed_workflows.lookup fresh_id = some run ∧
        run.status = WorkflowStatus.completed) := by
  have hrn : s.retry_count = (s.retry_count.toNat : Int) :=
    (Int.toNat_of_nonneg hr0).symm
  have hfuel : workflow_fuel (init_run_state template parameters).steps =
      s.retry_count.toNat + (1 + 1) := by
    show workflow_fuel (template.steps.map copy_step) = _
    rw [hsteps]
    show 1 + (copy_step s).retry_count.toNat + 1 = _
    show 1 + s.retry_count.toNat + 1 = _
    omega
  constructor
  · intro hfail
    obtain ⟨st', hrun, hmem⟩ := retry_fail_run oracle s parameters emsg
      s.retry_count.toNat hdeps hconds hrn
      (fun p j hj => hfail p j (by rw [hrn]; exact_mod_cast hj))
      s.retry_count.toNat 0 1 (by omega)
    have hrs : run_steps oracle (workflow_fuel (init_run_state template parameters).steps)
        (init_run_state template parameters) =
      (st', RunOutcome.err (RunError.stepFailure (emsg s.retry_count.toNat))) := by
      rw [hfuel, retry_state_zero template s parameters emsg hsteps]
      exact hrun
    refine ⟨_, finished_instance template fresh_id st'
        (RunOutcome.err (RunError.stepFailure (emsg s.retry_count.toNat))),
      execute_workflow_eq engine oracle workflow_id template parameters fresh_id _ _ h hrs,
      lookup_pyDictSet _ _ _, rfl, emsg s.retry_count.toNat, ?_⟩
    show LogEntry.stepLog s.id (emsg s.retry_count.toNat) ∈
      outcome_log st'.context.error_log
        (RunOutcome.err (RunError.stepFailure (emsg s.retry_count.toNat)))
    exact List.mem_append_left _ hmem
  · intro k v hk hfails hok
    have hkrn : k < s.retry_count.toNat := by omega
    obtain ⟨st', hrun⟩ := retry_success_run oracle s parameters emsg k v hdeps hconds
      (by omega) hfails hok k 0 (s.retry_count.toNat - k) (by omega)
    have hrs : run_steps oracle (workflow_fuel (init_run_state template parameters).steps)
        (init_run_state template parameters) = (st', RunOutcome.ok) := by
      rw [hfuel, retry_state_zero template s parameters emsg hsteps,
        show s.retry_count.toNat + (1 + 1) = k + ((s.retry_count.toNat - k) + 2) from by omega]
      exact hrun
    exact ⟨_, finished_instance template fresh_id st' RunOutcome.ok,
      execute_workflow_eq engine oracle workflow_id template parameters fresh_id _ _ h hrs,
      lookup_pyDictSet _ _ _, rfl⟩

/-- Witness for C3 at the concrete one-step engine. -/
theorem c3_retry_semantics_witness :
    fixture_engine.workflow_templates.lookup (lit "T") = some fixture_template ∧
    fixture_template.steps = [fixture_step] ∧
    fixture_step.dependencies = [] ∧
    fixture_step.conditions = [] ∧
    0 ≤ fixture_step.retry_count ∧
    (((∀ (p : List (Str × Value)) (j : Nat), (j : Int) ≤ fixture_step.retry_count →
        fixture_ok_oracle fixture_step.tool fixture_step.action p j =
          Except.error ((fun _ => lit "boom") j)) →
      ∃ engine' run,
        execute_workflow fixture_engine fixture_ok_oracle (lit "T") [] (lit "R") =
          Except.ok (engine', lit "R") ∧
        engine'.completed_workflows.lookup (lit "R") = some run ∧
        run.status = WorkflowStatus.failed ∧
        ∃ m, LogEntry.stepLog fixture_step.id m ∈ run.context.error_log) ∧
    (∀ (k : Nat) (v : Value), (k : Int) < fixture_step.retry_count →
      (∀ (p : List (Str × Value)) (j : Nat), j < k →
        fixture_ok_oracle fixture_step.tool fixture_step.action p j =
          Except.error ((fun _ => lit "boom") j)) →
      (∀ p, fixture_ok_oracle fixture_step.tool fixture_step.action p k = Except.ok v) →
      ∃ engine' run,
        execute_workflow fixture_engine fixture_ok_oracle (lit "T") [] (lit "R") =
          Except.ok (engine', lit "R") ∧
        engine'.completed_workflows.lookup (lit "R") = some run ∧
        run.status = WorkflowStatus.completed)) :=
  ⟨rfl, rfl, rfl, rfl, by decide,
   c3_retry_semantics fixture_engine fixture_ok_oracle (lit "T") fixture_template
     fixture_step [] (lit "R") (fun _ => lit "boom") rfl rfl rfl rfl (by decide)⟩

/-! ### Scheduler toposort: claim C6 -/

theorem kahn_step_deg : ∀ (ns : List Str) (deg : Str → Int) (v : Str),
    (kahn_step deg ns).1 v = deg v - (ns.count v : Int) := by
  intro ns
  induction ns with
  | nil => intro deg v; simp [kahn_step]
  | cons nbr rest ih =>
    intro deg v
    show (kahn_step (fun w => if w = nbr then deg nbr - 1 else deg w) rest).1 v =
      deg v - ((nbr :: rest).count v : Int)
    rw [ih]
    rw [List.count_cons]
    by_cases hv : v = nbr
    · subst hv
      simp only [if_pos rfl, beq_self_eq_true, if_true]
      push_cast
      ring
    · have hne : (nbr == v) = false := beq_eq_false_iff_ne.mpr (fun h => hv h.symm)
      simp only [if_neg hv, hne, if_false]
      push_cast
      ring

theorem kahn_step_mem : ∀ (ns : List Str) (deg : Str → Int) (v : Str),
    v ∈ (kahn_step deg ns).2 ↔ (1 ≤ deg v ∧ deg v ≤ (ns.count v : Int)) := by
  intro ns
  induction ns with
  | nil =>
    intro deg v
    simp only [kahn_step, List.not_mem_nil, false_iff, List.count_nil, Nat.cast_zero]
    omega
  | cons nbr rest ih =>
    intro deg v
    show v ∈ (if deg nbr - 1 = 0
        then nbr :: (kahn_step (fun w => if w = nbr then deg nbr - 1 else deg w) rest).2
        else (kahn_step (fun w => if w = nbr then deg nbr - 1 else deg w) rest).2) ↔
      (1 ≤ deg v ∧ deg v ≤ ((nbr :: rest).count v : Int))
    rw [List.count_cons]
    by_cases hv : v = nbr
    · subst hv
      simp only [beq_self_eq_true, if_true]
      by_cases hd : deg v - 1 = 0
      · rw [if_pos hd]
        constructor
        · intro _
          constructor
          · omega
          · push_cast
            omega
        · intro _
          exact List.mem_cons_self _ _
      · rw [if_neg hd, ih]
        simp only [if_pos rfl]
        push_cast
        omega
    · have hne : (nbr == v) = false := beq_eq_false_iff_ne.mpr (fun h => hv h.symm)
      have hmem : v ∈ (if deg nbr - 1 = 0
          then nbr :: (kahn_step (fun w => if w = nbr then deg nbr - 1 else deg w) rest).2
          else (kahn_step (fun w => if w = nbr then deg nbr - 1 else deg w) rest).2) ↔
          v ∈ (kahn_step (fun w => if w = nbr then deg nbr - 1 else deg w) rest).2 := by
        by_cases hd : deg nbr - 1 = 0
        · rw [if_pos hd]
          simp [hv]
        · rw [if_neg hd]
      rw [hmem, ih]
      simp only [if_neg hv, hne, if_false]
      push_cast
      omega

theorem kahn_step_nodup : ∀ (ns : List Str) (deg : Str → Int),
    (kahn_step deg ns).2.Nodup := by
  intro ns
  induction ns with
  | nil => intro deg; exact List.nodup_nil
  | cons nbr rest ih =>
    intro deg
    show (if deg nbr - 1 = 0
        then nbr :: (kahn_step (fun w => if w = nbr then deg nbr - 1 else deg w) rest).2
        else (kahn_step (fun w => if w = nbr then deg nbr - 1 else deg w) rest).2).Nodup
    by_cases hd : deg nbr - 1 = 0
    · rw [if_pos hd]
      refine List.nodup_cons.mpr ⟨?_, ih _⟩
      intro hmem
      have h2 := (kahn_step_mem rest (fun w => if w = nbr then deg nbr - 1 else deg w) nbr).mp hmem
      simp only [if_pos] at h2
      omega
    · rw [if_neg hd]
      exact ih _

theorem kahn_step_subset (ns : List Str) (deg : Str → Int) (v : Str)
    (h : v ∈ (kahn_step deg ns).2) : v ∈ ns := by
  have := (kahn_step_mem ns deg v).mp h
  have hpos : 0 < ns.count v := by
    by_contra hc
    push_neg at hc
    interval_cases h2 : ns.count v
    · omega
  exact List.count_pos_iff.mp hpos

/-- The in-degree of `v` counting only edges whose source has not yet been
popped into `res`: the value the Python `in_degree` dict holds mid-loop. -/
def countIn (E : List (Str × Str)) (res : List Str) (v : Str) : Nat :=
  (E.filter (fun e => e.2 == v && !(res.contains e.1))).length

theorem count_graph_of (E : List (Str × Str)) (u v : Str) :
    (graph_of E u).count v = (E.filter (fun e => e.1 == u && e.2 == v)).length := by
  induction E with
  | nil => rfl
  | cons e rest ih =>
    have hstep : graph_of (e :: rest) u =
        (if (e.1 == u) = true then e.2 :: graph_of rest u else graph_of rest u) := by
      unfold graph_of
      rw [List.filter_cons]
      by_cases h1 : (e.1 == u) = true
      · rw [if_pos h1, if_pos h1, List.map_cons]
      · rw [if_neg h1, if_neg h1]
    rw [hstep, List.filter_cons]
    by_cases h1 : (e.1 == u) = true <;> by_cases h2 : (e.2 == v) = true
    · rw [if_pos h1, if_pos (show (e.1 == u && e.2 == v) = true by rw [h1, h2]; rfl),
        List.count_cons, ih, List.length_cons, h2]
      simp
    · rw [if_pos h1, if_neg (show ¬ (e.1 == u && e.2 == v) = true by
        have h2f : (e.2 == v) = false := by simpa using h2
        rw [h1, h2f]
        simp), List.count_cons, ih]
      have h2f : (e.2 == v) = false := by simpa using h2
      rw [h2f]
      simp
    · rw [if_neg h1, if_neg (show ¬ (e.1 == u && e.2 == v) = true by
        have h1f : (e.1 == u) = false := by simpa using h1
        rw [h1f]
        simp)]
      exact ih
    · rw [if_neg h1, if_neg (show ¬ (e.1 == u && e.2 == v) = true by
        have h1f : (e.1 == u) = false := by simpa using h1
        rw [h1f]
        simp)]
      exact ih

theorem flow_edges_cons (agents : List Str) (p : Str × Str) (rest : List (Str × Str)) :
    flow_edges agents (p :: rest) =
      (if agents.contains p.1 then
        ((flow_targets p.2).filter (fun t => agents.contains t)).map (fun t => (p.1, t))
       else []) ++ flow_edges agents rest := by
  unfold flow_edges
  rw [List.foldr_cons]
  by_cases hp : agents.contains p.1 = true
  · rw [if_pos hp, if_pos hp]
  · rw [if_neg hp, if_neg hp, List.nil_append]

theorem countIn_cons (E : List (Str × Str)) (res : List Str) (current v : Str)
    (hcur : current ∉ res) :
    countIn E res v = countIn E (current :: res) v + (graph_of E current).count v := by
  rw [count_graph_of]
  induction E with
  | nil => rfl
  | cons e rest ih =>
    unfold countIn at ih ⊢
    rw [List.filter_cons, List.filter_cons, List.filter_cons,
      show ((current :: res).contains e.1) = (e.1 == current || res.contains e.1) from
        List.contains_cons]
    cases h1 : (e.1 == current) with
    | true =>
      cases hc : res.contains e.1 with
      | true =>
        refine absurd ?_ hcur
        have he1 : e.1 ∈ res := by simpa using hc
        rwa [eq_of_beq h1] at he1
      | false =>
        cases h2 : (e.2 == v) with
        | true =>
          simp at ih ⊢
          omega
        | false =>
          simp at ih ⊢
          omega
    | false =>
      cases hc : res.contains e.1 with
      | true =>
        simp at ih ⊢
        omega
      | false =>
        cases h2 : (e.2 == v) with
        | true =>
          simp at ih ⊢
          omega
        | false =>
          simp at ih ⊢
          omega

theorem length_filter_le_of_imp {α : Type} (p q : α → Bool) (l : List α)
    (h : ∀ x ∈ l, p x = true → q x = true) :
    (l.filter p).length ≤ (l.filter q).length := by
  induction l with
  | nil => exact Nat.le_refl 0
  | cons a rest ih =>
    rw [List.filter_cons, List.filter_cons]
    by_cases hp : p a = true
    · rw [if_pos hp, if_pos (h a (by simp) hp)]
      simpa using ih fun x hx => h x (by simp [hx])
    · rw [if_neg hp]
      by_cases hq : q a = true
      · rw [if_pos hq]
        exact Nat.le_succ_of_le (ih fun x hx => h x (by simp [hx]))
      · rw [if_neg hq]
        exact ih fun x hx => h x (by simp [hx])

theorem count_graph_le_countIn (E : List (Str × Str)) (res : List Str) (current v : Str)
    (hcur : current ∉ res) :
    (graph_of E current).count v ≤ countIn E res v := by
  rw [count_graph_of]
  apply length_filter_le_of_imp
  intro e _ he
  simp only [Bool.and_eq_true] at he
  obtain ⟨he1, he2⟩ := he
  have h1 : e.1 = current := eq_of_beq he1
  have hres : res.contains e.1 = false := by
    rw [h1]
    simpa using hcur
  show (e.2 == v && !(res.contains e.1)) = true
  rw [he2, hres]
  rfl

theorem mem_graph_of (E : List (Str × Str)) (u v : Str) (h : v ∈ graph_of E u) :
    ∃ e ∈ E, e.1 = u ∧ e.2 = v := by
  unfold graph_of at h
  rcases List.mem_map.mp h with ⟨e, hef, rfl⟩
  rcases List.mem_filter.mp hef with ⟨heE, hbeq⟩
  exact ⟨e, heE, eq_of_beq hbeq, rfl⟩

theorem flow_edges_mem (agents : List Str) (data_flow : List (Str × Str)) :
    ∀ e ∈ flow_edges agents data_flow,
      e.1 ∈ agents ∧ e.2 ∈ agents ∧
        ∃ p ∈ data_flow, e.1 = p.1 ∧ e.2 ∈ flow_targets p.2 := by
  induction data_flow with
  | nil => intro e he; exact absurd he (List.not_mem_nil e)
  | cons p rest ih =>
    intro e he
    rw [flow_edges_cons] at he
    rcases List.mem_append.mp he with h | h
    · by_cases hp : agents.contains p.1 = true
      · rw [if_pos hp] at h
        rcases List.mem_map.mp h with ⟨t, htf, rfl⟩
        rcases List.mem_filter.mp htf with ⟨htmem, hta⟩
        exact ⟨by simpa using hp, by simpa using hta, p, by simp, rfl, htmem⟩
      · rw [if_neg hp] at h
        exact absurd h (List.not_mem_nil e)
    · rcases ih e h with ⟨h1, h2, q, hq, h3, h4⟩
      exact ⟨h1, h2, q, by simp [hq], h3, h4⟩

theorem outside_not_endpoint (agents : List Str) (data_flow : List (Str × Str)) (a : Str)
    (ha : in_flow_map data_flow a = false) :
    ∀ e ∈ flow_edges agents data_flow, e.1 ≠ a ∧ e.2 ≠ a := by
  intro e he
  rcases flow_edges_mem agents data_flow e he with ⟨_, _, p, hp, h1, h2⟩
  have hall := List.any_eq_false.mp ha p hp
  constructor
  · intro hea
    apply hall
    have hb : (p.1 == a) = true := by
      rw [← h1, hea]
      exact beq_self_eq_true a
    show (p.1 == a || (flow_targets p.2).contains a) = true
    rw [hb, Bool.true_or]
  · intro hea
    apply hall
    have hb : (flow_targets p.2).contains a = true := by
      rw [← hea]
      simpa using h2
    show (p.1 == a || (flow_targets p.2).contains a) = true
    rw [hb, Bool.or_true]

theorem kahn_loop_res (graph : Str → List Str) :
    ∀ (fuel : Nat) (queue : List Str) (deg : Str → Int) (res : List Str),
      kahn_loop graph fuel queue deg res =
        res.reverse ++ kahn_loop graph fuel queue deg [] := by
  intro fuel
  induction fuel with
  | zero => intro queue deg res; simp [kahn_loop]
  | succ fuel ih =>
    intro queue deg res
    cases queue with
    | nil => simp [kahn_loop]
    | cons current rest =>
      show kahn_loop graph fuel (rest ++ (kahn_step deg (graph current)).2)
          (kahn_step deg (graph current)).1 (current :: res) = res.reverse ++
        kahn_loop graph fuel (rest ++ (kahn_step deg (graph current)).2)
          (kahn_step deg (graph current)).1 [current]
      rw [ih _ _ (current :: res), ih _ _ [current]]
      simp

/-- `a` is an initial segment of `b`. -/
def listIsPre {α : Type} (a b : List α) : Prop := ∃ t, a ++ t = b

theorem kahn_loop_filter_pre (graph : Str → List Str) (p : Str → Bool)
    (hp : ∀ u v, v ∈ graph u → p v = false) :
    ∀ (fuel : Nat) (queue : List Str) (deg : Str → Int),
      listIsPre ((kahn_loop graph fuel queue deg []).filter p) (queue.filter p) := by
  intro fuel
  induction fuel with
  | zero => intro queue deg; exact ⟨queue.filter p, by simp [kahn_loop]⟩
  | succ fuel ih =>
    intro queue deg
    cases queue with
    | nil => exact ⟨[], by simp [kahn_loop]⟩
    | cons current rest =>
      have hstep : kahn_loop graph (fuel + 1) (current :: rest) deg [] =
          current :: kahn_loop graph fuel (rest ++ (kahn_step deg (graph current)).2)
            (kahn_step deg (graph current)).1 [] := by
        show kahn_loop graph fuel (rest ++ (kahn_step deg (graph current)).2)
          (kahn_step deg (graph current)).1 [current] = _
        rw [kahn_loop_res graph fuel _ _ [current]]
        rfl
      rw [hstep]
      rcases ih (rest ++ (kahn_step deg (graph current)).2) (kahn_step deg (graph current)).1
        with ⟨t, ht⟩
      have henq : ((kahn_step deg (graph current)).2).filter p = [] := by
        apply List.filter_eq_nil_iff.mpr
        intro x hx
        have hpx := hp current x (kahn_step_subset _ _ _ hx)
        simp [hpx]
      rw [List.filter_append, henq, List.append_nil] at ht
      rw [List.filter_cons]
      by_cases hc : p current = true
      · rw [if_pos hc]
        refine ⟨t, ?_⟩
        rw [List.filter_cons, if_pos hc, List.cons_append, ht]
      · rw [if_neg hc]
        refine ⟨t, ?_⟩
        rw [List.filter_cons, if_neg hc]
        exact ht

/-- Invariant of the Kahn `while queue:` loop: `res` holds the popped
vertices (newest first), `queue` the pending zero-in-degree vertices,
`deg` the current in-degree table. -/
structure KahnInv (agents : List Str) (E : List (Str × Str)) (queue : List Str)
    (deg : Str → Int) (res : List Str) : Prop where
  nodup : (res ++ queue).Nodup
  sub : ∀ x ∈ res ++ queue, x ∈ agents
  deg_eq : ∀ v ∈ agents, deg v = (countIn E res v : Int)
  queue_zero : ∀ v ∈ queue, deg v = 0
  nonqueue : ∀ v ∈ agents, v ∉ res → v ∉ queue → deg v ≠ 0
  sound : ∀ e ∈ E, e.2 ∈ res → List.Sublist [e.1, e.2] res.reverse

/-- What the Kahn loop guarantees about its output list. -/
structure KahnOut (agents : List Str) (E : List (Str × Str)) (out : List Str) : Prop where
  nodup : out.Nodup
  sub : ∀ x ∈ out, x ∈ agents
  sound : ∀ e ∈ E, e.2 ∈ out → List.Sublist [e.1, e.2] out
  complete : ∀ v ∈ agents, v ∉ out → ∃ e ∈ E, e.2 = v ∧ e.1 ∉ out

theorem kahn_inv_step (agents : List Str) (E : List (Str × Str))
    (hE : ∀ e ∈ E, e.1 ∈ agents ∧ e.2 ∈ agents)
    (current : Str) (rest : List Str) (deg : Str → Int) (res : List Str)
    (inv : KahnInv agents E (current :: rest) deg res) :
    KahnInv agents E (rest ++ (kahn_step deg (graph_of E current)).2)
      (kahn_step deg (graph_of E current)).1 (current :: res) := by
  rcases List.nodup_append.mp inv.nodup with ⟨hres_nd, hcrest_nd, hdisj⟩
  have hcur_rest : current ∉ rest := (List.nodup_cons.mp hcrest_nd).1
  have hrest_nd : rest.Nodup := (List.nodup_cons.mp hcrest_nd).2
  have hcr : current ∉ res := fun h => hdisj h (List.mem_cons_self _ _)
  have hcagents : current ∈ agents := inv.sub current (by simp)
  have hdegc : deg current = 0 := inv.queue_zero current (by simp)
  have hcount0 : countIn E res current = 0 := by
    have := inv.deg_eq current hcagents
    omega
  have hpreds : ∀ e ∈ E, e.2 = current → e.1 ∈ res := by
    intro e heE he2
    by_contra hnotres
    have hcond : (fun e : Str × Str => e.2 == current && !(res.contains e.1)) e = true := by
      show (e.2 == current && !(res.contains e.1)) = true
      have h1 : (e.2 == current) = true := by
        rw [he2]
        exact beq_self_eq_true current
      have h2 : res.contains e.1 = false := by simpa using hnotres
      rw [h1, h2]
      rfl
    have hmemf : e ∈ E.filter (fun e => e.2 == current && !(res.contains e.1)) :=
      List.mem_filter.mpr ⟨heE, hcond⟩
    have hpos : 0 < countIn E res current := by
      unfold countIn
      exact List.length_pos_of_mem hmemf
    omega
  have henq_graph : ∀ v ∈ (kahn_step deg (graph_of E current)).2, v ∈ graph_of E current :=
    fun v hv => kahn_step_subset _ _ _ hv
  have henq_edge : ∀ v ∈ (kahn_step deg (graph_of E current)).2,
      ∃ e ∈ E, e.1 = current ∧ e.2 = v :=
    fun v hv => mem_graph_of E current v (henq_graph v hv)
  have henq_agents : ∀ v ∈ (kahn_step deg (graph_of E current)).2, v ∈ agents := by
    intro v hv
    rcases henq_edge v hv with ⟨e, heE, _, he2⟩
    rw [← he2]
    exact (hE e heE).2
  have henq_not_res : ∀ v ∈ (kahn_step deg (graph_of E current)).2, v ∉ res := by
    intro v hv hvres
    rcases henq_edge v hv with ⟨e, heE, he1, he2⟩
    have hsl := inv.sound e heE (he2 ▸ hvres)
    have hmem : e.1 ∈ res := by
      have := hsl.subset (List.mem_cons_self _ _)
      simpa using this
    rw [he1] at hmem
    exact hcr hmem
  have henq_not_queue : ∀ v ∈ (kahn_step deg (graph_of E current)).2,
      v ∉ current :: rest := by
    intro v hv hvq
    have h1 := ((kahn_step_mem _ deg v).mp hv).1
    have h0 := inv.queue_zero v hvq
    omega
  have henq_nodup : (kahn_step deg (graph_of E current)).2.Nodup := kahn_step_nodup _ deg
  refine ⟨?_, ?_, ?_, ?_, ?_, ?_⟩
  · rw [List.nodup_append]
    refine ⟨List.nodup_cons.mpr ⟨hcr, hres_nd⟩, ?_, ?_⟩
    · rw [List.nodup_append]
      refine ⟨hrest_nd, henq_nodup, ?_⟩
      intro x hxr hxe
      exact henq_not_queue x hxe (List.mem_cons_of_mem _ hxr)
    · intro x hx hx2
      rcases List.mem_cons.mp hx with rfl | hxres
      · rcases List.mem_append.mp hx2 with h | h
        · exact hcur_rest h
        · exact henq_not_queue x h (List.mem_cons_self _ _)
      · rcases List.mem_append.mp hx2 with h | h
        · exact hdisj hxres (List.mem_cons_of_mem _ h)
        · exact henq_not_res x h hxres
  · intro x hx
    rcases List.mem_append.mp hx with h | h
    · rcases List.mem_cons.mp h with rfl | hxres
      · exact hcagents
      · exact inv.sub x (List.mem_append_left _ hxres)
    · rcases List.mem_append.mp h with h2 | h2
      · exact inv.sub x (List.mem_append_right _ (List.mem_cons_of_mem _ h2))
      · exact henq_agents x h2
  · intro v hv
    rw [kahn_step_deg, inv.deg_eq v hv,
      countIn_cons E res current v hcr]
    push_cast
    ring
  · intro v hv
    rw [kahn_step_deg]
    rcases List.mem_append.mp hv with h | h
    · have h0 : deg v = 0 := inv.queue_zero v (List.mem_cons_of_mem _ h)
      have hva : v ∈ agents := inv.sub v (List.mem_append_right _ (List.mem_cons_of_mem _ h))
      have hle := count_graph_le_countIn E res current v hcr
      have hde := inv.deg_eq v hva
      omega
    · have hspec := (kahn_step_mem _ deg v).mp h
      have hva : v ∈ agents := henq_agents v h
      have hle := count_graph_le_countIn E res current v hcr
      have hde := inv.deg_eq v hva
      omega
  · intro v hva hvres hvq
    rw [kahn_step_deg]
    have hvnres : v ∉ res := fun h => hvres (List.mem_cons_of_mem _ h)
    have hvne : v ≠ current := fun h => hvres (h ▸ List.mem_cons_self _ _)
    have hvnrest : v ∉ rest := fun h => hvq (List.mem_append_left _ h)
    have hvnenq : v ∉ (kahn_step deg (graph_of E current)).2 :=
      fun h => hvq (List.mem_append_right _ h)
    have hvnq : v ∉ current :: rest := by
      intro h
      rcases List.mem_cons.mp h with h | h
      · exact hvne h
      · exact hvnrest h
    have hne0 := inv.nonqueue v hva hvnres hvnq
    have hnmem := (kahn_step_mem (graph_of E current) deg v).not.mp hvnenq
    rw [not_and_or] at hnmem
    have hde := inv.deg_eq v hva
    have hcnt : (0 : Int) ≤ (countIn E res v : Int) := Int.ofNat_nonneg _
    rcases hnmem with h | h
    · omega
    · omega
  · intro e heE he2
    rw [List.reverse_cons]
    rcases List.mem_cons.mp he2 with h | h
    · have he1res : e.1 ∈ res := hpreds e heE h
      have h1 : List.Sublist [e.1] res.reverse :=
        List.singleton_sublist.mpr (List.mem_reverse.mpr he1res)
      have h2 : List.Sublist [e.2] [current] := by
        rw [h]
      have := List.Sublist.append h1 h2
      simpa using this
    · exact (inv.sound e heE h).trans (List.sublist_append_left _ _)

theorem kahn_main (agents : List Str) (E : List (Str × Str))
    (hE : ∀ e ∈ E, e.1 ∈ agents ∧ e.2 ∈ agents) :
    ∀ (fuel : Nat) (queue : List Str) (deg : Str → Int) (res : List Str),
      KahnInv agents E queue deg res →
      agents.length - res.length < fuel →
      KahnOut agents E (kahn_loop (graph_of E) fuel queue deg res) := by
  intro fuel
  induction fuel with
  | zero =>
    intro queue deg res _ hf
    omega
  | succ fuel ih =>
    intro queue deg res inv hf
    cases queue with
    | nil =>
      show KahnOut agents E res.reverse
      have hres_nd : res.Nodup := by
        have := inv.nodup
        rw [List.append_nil] at this
        exact this
      refine ⟨by simpa using hres_nd, ?_, ?_, ?_⟩
      · intro x hx
        exact inv.sub x (by simpa using List.mem_reverse.mp hx)
      · intro e heE he2
        exact inv.sound e heE (List.mem_reverse.mp he2)
      · intro v hva hvout
        have hvres : v ∉ res := fun h => hvout (List.mem_reverse.mpr h)
        have hne0 := inv.nonqueue v hva hvres (List.not_mem_nil v)
        have hde := inv.deg_eq v hva
        have hpos : 0 < countIn E res v := by omega
        unfold countIn at hpos
        rcases List.exists_mem_of_length_pos hpos with ⟨e, hef⟩
        rcases List.mem_filter.mp hef with ⟨heE, hcond⟩
        simp only [Bool.and_eq_true] at hcond
        obtain ⟨h2, h1⟩ := hcond
        refine ⟨e, heE, eq_of_beq h2, ?_⟩
        intro hc
        have he1res : e.1 ∈ res := List.mem_reverse.mp hc
        have hcont : res.contains e.1 = true := by simpa using he1res
        rw [hcont] at h1
        simp at h1
    | cons current rest =>
      show KahnOut agents E (kahn_loop (graph_of E) fuel
        (rest ++ (kahn_step deg (graph_of E current)).2)
        (kahn_step deg (graph_of E current)).1 (current :: res))
      apply ih
      · exact kahn_inv_step agents E hE current rest deg res inv
      · have hsub : List.Subperm (res ++ current :: rest) agents :=
          (inv.nodup).subperm inv.sub
        have hlen := hsub.length_le
        rw [List.length_append, List.length_cons] at hlen
        simp only [List.length_cons]
        omega

theorem kahn_inv_init (agents : List Str) (E : List (Str × Str)) (hnd : agents.Nodup) :
    KahnInv agents E (agents.filter (fun a => in_degree0 E a == 0))
      (fun v => (in_degree0 E v : Int)) [] := by
  have hdeg0 : ∀ v, in_degree0 E v = countIn E [] v := by
    intro v
    unfold in_degree0 countIn
    congr 1
    apply List.filter_congr
    intro e _
    simp [List.contains]
  refine ⟨?_, ?_, ?_, ?_, ?_, ?_⟩
  · simpa using hnd.filter _
  · intro x hx
    rw [List.nil_append] at hx
    exact (List.mem_filter.mp hx).1
  · intro v _
    rw [hdeg0]
  · intro v hv
    have h0 : in_degree0 E v = 0 := by simpa using (List.mem_filter.mp hv).2
    simp [h0]
  · intro v hva _ hvq hd0
    apply hvq
    apply List.mem_filter.mpr
    refine ⟨hva, ?_⟩
    have h0 : in_degree0 E v = 0 := by exact_mod_cast hd0
    simp [h0]
  · intro e _ h
    exact absurd h (List.not_mem_nil _)

theorem first_not_mem {α : Type} (out : List α) :
    ∀ (l : List α), (∃ x ∈ l, x ∉ out) →
      ∃ ini x post, l = ini ++ x :: post ∧ x ∉ out ∧ ∀ y ∈ ini, y ∈ out := by
  intro l
  induction l with
  | nil =>
    rintro ⟨x, hx, _⟩
    exact absurd hx (List.not_mem_nil x)
  | cons a rest ih =>
    rintro ⟨x, hx, hxout⟩
    by_cases ha : a ∈ out
    · rcases List.mem_cons.mp hx with rfl | hxr
      · exact absurd ha hxout
      · rcases ih ⟨x, hxr, hxout⟩ with ⟨ini, y, post, heq, hy, hini⟩
        refine ⟨a :: ini, y, post, by rw [heq]; rfl, hy, ?_⟩
        intro z hz
        rcases List.mem_cons.mp hz with rfl | hzp
        · exact ha
        · exact hini z hzp
    · exact ⟨[], a, rest, rfl, ha, by intro y hy; exact absurd hy (List.not_mem_nil y)⟩

theorem sublist_two_mem_left {α : Type} (u v : α) (ini post : List α)
    (hnd : (ini ++ v :: post).Nodup) (huv : u ≠ v)
    (hsl : List.Sublist [u, v] (ini ++ v :: post)) : u ∈ ini := by
  have hvpost : v ∉ post := by
    rcases List.nodup_append.mp hnd with ⟨_, hnd2, _⟩
    exact (List.nodup_cons.mp hnd2).1
  have hdisj : ini.Disjoint (v :: post) := (List.nodup_append.mp hnd).2.2
  rcases List.sublist_append_iff.mp hsl with ⟨r1, r2, heq, h1, h2⟩
  cases r1 with
  | nil =>
    rw [List.nil_append] at heq
    rw [← heq] at h2
    cases h2 with
    | cons _ h =>
      exact absurd (h.subset (by simp)) hvpost
    | cons₂ _ h =>
      exact absurd rfl huv
  | cons a r1t =>
    have heq2 : u = a ∧ [v] = r1t ++ r2 := by
      have hcc : u :: [v] = a :: (r1t ++ r2) := heq
      exact ⟨((List.cons.injEq _ _ _ _).mp hcc).1, ((List.cons.injEq _ _ _ _).mp hcc).2⟩
    rcases heq2 with ⟨rfl, htail⟩
    cases r1t with
    | nil =>
      exact List.singleton_sublist.mp (by simpa using h1)
    | cons b r1tt =>
      have hb : v = b := ((List.cons.injEq _ _ _ _).mp htail).1
      have hvini : v ∈ ini := by
        apply h1.subset
        rw [hb]
        simp
      exact absurd (hdisj hvini (List.mem_cons_self _ _)) id

theorem mem_out_of_topo (E : List (Str × Str)) (out ord : List Str)
    (hordnd : ord.Nodup)
    (hcomp : ∀ v ∈ ord, v ∉ out → ∃ e ∈ E, e.2 = v ∧ e.1 ∉ out)
    (hord : ∀ e ∈ E, List.Sublist [e.1, e.2] ord) :
    ∀ x ∈ ord, x ∈ out := by
  by_contra hc
  push_neg at hc
  rcases first_not_mem out ord hc with ⟨ini, v, post, heq, hv, hini⟩
  have hvord : v ∈ ord := by
    rw [heq]
    simp
  rcases hcomp v hvord hv with ⟨e, heE, he2, he1⟩
  have hsl := hord e heE
  rw [he2, heq] at hsl
  rw [heq] at hordnd
  by_cases huv : e.1 = v
  · rw [huv] at hsl
    have hnd2 : ([v, v] : List Str).Nodup := List.Nodup.sublist hsl hordnd
    simp at hnd2
  · exact he1 (hini e.1 (sublist_two_mem_left e.1 v ini post hordnd huv hsl))

theorem filter_filter_imp {α : Type} (p q : α → Bool) (l : List α)
    (h : ∀ x ∈ l, p x = true → q x = true) :
    (l.filter q).filter p = l.filter p := by
  induction l with
  | nil => rfl
  | cons a rest ih =>
    rw [List.filter_cons]
    by_cases hq : q a = true
    · rw [if_pos hq, List.filter_cons, List.filter_cons]
      by_cases hp : p a = true
      · rw [if_pos hp, if_pos hp, ih fun x hx hpx => h x (by simp [hx]) hpx]
      · rw [if_neg hp, if_neg hp, ih fun x hx hpx => h x (by simp [hx]) hpx]
    · rw [if_neg hq, List.filter_cons]
      have hp : ¬ p a = true := fun hpa => hq (h a (by simp) hpa)
      rw [if_neg hp, ih fun x hx hpx => h x (by simp [hx]) hpx]

theorem listIsPre_eq {α : Type} (a b : List α) (h : listIsPre a b)
    (hlen : b.length ≤ a.length) : a = b := by
  rcases h with ⟨t, ht⟩
  have hl : a.length + t.length = b.length := by
    rw [← ht]
    simp
  have ht0 : t = [] := List.length_eq_zero.mp (by omega)
  rw [ht0, List.append_nil] at ht
  exact ht

theorem target_in_flow_map (data_flow : List (Str × Str)) (v : Str) (q : Str × Str)
    (hq : q ∈ data_flow) (hv : v ∈ flow_targets q.2) :
    in_flow_map data_flow v = true := by
  unfold in_flow_map
  apply List.any_eq_true.mpr
  refine ⟨q, hq, ?_⟩
  have hc : (flow_targets q.2).contains v = true := by simpa using hv
  show (q.1 == v || (flow_targets q.2).contains v) = true
  rw [hc, Bool.or_true]

theorem outside_in_degree0 (agents : List Str) (data_flow : List (Str × Str)) (a : Str)
    (ha : in_flow_map data_flow a = false) :
    in_degree0 (flow_edges agents data_flow) a = 0 := by
  unfold in_degree0
  have hnil : (flow_edges agents data_flow).filter (fun e => e.2 == a) = [] := by
    apply List.filter_eq_nil_iff.mpr
    intro e he hbeq
    exact (outside_not_endpoint agents data_flow a ha e he).2 (eq_of_beq hbeq)
  rw [hnil]
  rfl

theorem kahn_out_perm (agents : List Str) (E : List (Str × Str)) (out : List Str)
    (hE : ∀ e ∈ E, e.1 ∈ agents ∧ e.2 ∈ agents)
    (hout : KahnOut agents E out) (hlen : out.length = agents.length) :
    topo_order_on agents E out := by
  have hperm : out.Perm agents := by
    have hsub : List.Subperm out agents := hout.nodup.subperm hout.sub
    exact hsub.perm_of_length_le (by omega)
  refine ⟨hperm, ?_⟩
  intro e heE
  exact hout.sound e heE (hperm.mem_iff.mpr (hE e heE).2)

theorem kahn_out_len (agents : List Str) (E : List (Str × Str)) (out ord : List Str)
    (hout : KahnOut agents E out) (hnd : agents.Nodup)
    (hord : topo_order_on agents E ord) : out.length = agents.length := by
  have hordnd : ord.Nodup := hord.1.nodup_iff.mpr hnd
  have hall : ∀ x ∈ ord, x ∈ out := by
    apply mem_out_of_topo E out ord hordnd
    · intro v hv hvout
      exact hout.complete v (hord.1.subset hv) hvout
    · exact hord.2
  have hperm : out.Perm agents := by
    refine (List.perm_ext_iff_of_nodup hout.nodup hnd).mpr ?_
    intro a
    constructor
    · exact fun h => hout.sub a h
    · intro h
      exact hall a (hord.1.mem_iff.mpr h)
  exact hperm.length_eq

theorem c6_aux (agents : List Str) (data_flow : List (Str × Str)) (out : List Str)
    (hnd : agents.Nodup)
    (hK : kahn_loop (graph_of (flow_edges agents data_flow)) (agents.length + 1)
        (agents.filter (fun a => in_degree0 (flow_edges agents data_flow) a == 0))
        (fun v => (in_degree0 (flow_edges agents data_flow) v : Int)) [] = out) :
    ((∃ ord, topo_order_on agents (flow_edges agents data_flow) ord) →
        topo_order_on agents (flow_edges agents data_flow)
          (topological_sort agents data_flow)) ∧
    ((¬ ∃ ord, topo_order_on agents (flow_edges agents data_flow) ord) →
        topological_sort agents data_flow = agents) ∧
    (topological_sort agents data_flow).filter (fun a => !(in_flow_map data_flow a)) =
      agents.filter (fun a => !(in_flow_map data_flow a)) := by
  have hE : ∀ e ∈ flow_edges agents data_flow, e.1 ∈ agents ∧ e.2 ∈ agents := by
    intro e he
    rcases flow_edges_mem agents data_flow e he with ⟨h1, h2, _⟩
    exact ⟨h1, h2⟩
  have hout : KahnOut agents (flow_edges agents data_flow) out := by
    rw [← hK]
    apply kahn_main agents (flow_edges agents data_flow) hE
    · exact kahn_inv_init agents (flow_edges agents data_flow) hnd
    · simp
  have hts : topological_sort agents data_flow =
      (if out.length = agents.length then out else agents) := by
    rw [← hK]
    rfl
  refine ⟨?_, ?_, ?_⟩
  · rintro ⟨ord, hord⟩
    have hlen := kahn_out_len agents (flow_edges agents data_flow) out ord hout hnd hord
    rw [hts, if_pos hlen]
    exact kahn_out_perm agents (flow_edges agents data_flow) out hE hout hlen
  · intro hno
    by_cases hlen : out.length = agents.length
    · exact absurd ⟨out, kahn_out_perm agents (flow_edges agents data_flow) out hE hout hlen⟩ hno
    · rw [hts, if_neg hlen]
  · by_cases hlen : out.length = agents.length
    · rw [hts, if_pos hlen]
      have hp : ∀ u v, v ∈ graph_of (flow_edges agents data_flow) u →
          (fun a => !(in_flow_map data_flow a)) v = false := by
        intro u v hv
        rcases mem_graph_of (flow_edges agents data_flow) u v hv with ⟨e, heE, _, he2⟩
        rcases flow_edges_mem agents data_flow e heE with ⟨_, _, q, hq, _, h4⟩
        have hmap := target_in_flow_map data_flow e.2 q hq h4
        rw [he2] at hmap
        simp [hmap]
      have hiso := kahn_loop_filter_pre (graph_of (flow_edges agents data_flow))
        (fun a => !(in_flow_map data_flow a)) hp (agents.length + 1)
        (agents.filter (fun a => in_degree0 (flow_edges agents data_flow) a == 0))
        (fun v => (in_degree0 (flow_edges agents data_flow) v : Int))
      rw [hK] at hiso
      have hq0 : (agents.filter (fun a => in_degree0 (flow_edges agents data_flow) a == 0)).filter
            (fun a => !(in_flow_map data_flow a)) =
          agents.filter (fun a => !(in_flow_map data_flow a)) := by
        apply filter_filter_imp
        intro x _ hpx
        have hfm : in_flow_map data_flow x = false := by simpa using hpx
        have h0 := outside_in_degree0 agents data_flow x hfm
        simp [h0]
      rw [hq0] at hiso
      have hperm : out.Perm agents :=
        (hout.nodup.subperm hout.sub).perm_of_length_le (by omega)
      have hlf := (hperm.filter (fun a => !(in_flow_map data_flow a))).length_eq
      exact listIsPre_eq _ _ hiso (by omega)
    · rw [hts, if_neg hlen]

/-- C6: for every duplicate-free agent list and data-flow map, the pipeline
ordering function `_topological_sort` (i) returns a topological order of the
induced graph whenever an order covering all agents exists, (ii) otherwise
returns the original agent list unchanged (the explicit non-raising
fallback), and (iii) in every case the agents that appear nowhere in the
data-flow map retain their relative input order. -/
theorem c6_topological_sort (agents : List Str) (data_flow : List (Str × Str))
    (hnd : agents.Nodup) :
    ((∃ ord, topo_order_on agents (flow_edges agents data_flow) ord) →
        topo_order_on agents (flow_edges agents data_flow)
          (topological_sort agents data_flow)) ∧
    ((¬ ∃ ord, topo_order_on agents (flow_edges agents data_flow) ord) →
        topological_sort agents data_flow = agents) ∧
    (topological_sort agents data_flow).filter (fun a => !(in_flow_map data_flow a)) =
      agents.filter (fun a => !(in_flow_map data_flow a)) :=
  c6_aux agents data_flow _ hnd rfl

theorem c6_topological_sort_witness :
    ([lit "b", lit "a", lit "z"] : List Str).Nodup ∧
    (((∃ ord, topo_order_on [lit "b", lit "a", lit "z"]
          (flow_edges [lit "b", lit "a", lit "z"] [(lit "a", lit "b")]) ord) →
        topo_order_on [lit "b", lit "a", lit "z"]
          (flow_edges [lit "b", lit "a", lit "z"] [(lit "a", lit "b")])
          (topological_sort [lit "b", lit "a", lit "z"] [(lit "a", lit "b")])) ∧
      ((¬ ∃ ord, topo_order_on [lit "b", lit "a", lit "z"]
          (flow_edges [lit "b", lit "a", lit "z"] [(lit "a", lit "b")]) ord) →
        topological_sort [lit "b", lit "a", lit "z"] [(lit "a", lit "b")] =
          [lit "b", lit "a", lit "z"]) ∧
      (topological_sort [lit "b", lit "a", lit "z"] [(lit "a", lit "b")]).filter
          (fun a => !(in_flow_map [(lit "a", lit "b")] a)) =
        ([lit "b", lit "a", lit "z"] : List Str).filter
          (fun a => !(in_flow_map [(lit "a", lit "b")] a))) :=
  ⟨by decide, c6_topological_sort [lit "b", lit "a", lit "z"] [(lit "a", lit "b")] (by decide)⟩


end MCP